import Mathlib

/-!
# Verification of the E-Com customer-service RAG core

Shallow embedding of `src/core/shared_data.py` (KnowledgeStore: chunker,
query rewriter, inverted index, keyword search, hybrid search, confidence)
and `src/core/vector_store.py` (VectorStore: dimension handling, IVF
training state machine, pending-buffer search, prefix removal).

Modelling conventions:
* Python `str` values are modelled as `List Char` (`Str` below), so that
  slicing (`text[a:b]`), `startswith`, `in` (substring) and `replace`
  translate to executable list functions.
* Python `float` scores and vector components are idealised as `ℚ`.
  The two floating-point kernels the code delegates to numpy/faiss for —
  L2 normalisation and the dot product against the normalised query in
  `_search_pending_vectors` — are abstracted: vectors are stored as given
  and the per-vector similarity kernel is a function parameter `sim`
  (cosine similarity is invariant under the normalisation the code
  performs, so this is faithful up to the `1e-9` epsilon).
* `FAISS_AVAILABLE` is modelled as `True` (the claims all concern the
  FAISS code paths); the opaque native FAISS nearest-neighbour search is
  an oracle parameter of `VectorStore.search`.
* Python `while` loops that are not structurally terminating are given an
  explicit fuel argument; the driver passes fuel that provably suffices
  whenever the Python loop terminates (claim C10 is exactly about this).
-/

set_option autoImplicit false

abbrev Str := List Char

/-! ## Small string helpers shared by several components -/

/-- Python whitespace test (the characters relevant to this code base). -/
def isWs (c : Char) : Bool :=
  c = ' ' || c = '\t' || c = '\n' || c = '\r'

/-- Python `str.strip()`. -/
def strip (s : Str) : Str :=
  ((s.dropWhile isWs).reverse.dropWhile isWs).reverse

/-- One fuelled step list of maximal runs of characters satisfying `p`
(used for `re.findall` of character-class runs and for `str.split()`). -/
def runsFuel (p : Char → Bool) : ℕ → Str → List Str
  | 0, _ => []
  | _ + 1, [] => []
  | fuel + 1, c :: cs =>
    if p c then (c :: cs.takeWhile p) :: runsFuel p fuel (cs.dropWhile p)
    else runsFuel p fuel cs

/-- Maximal runs of characters satisfying `p`, in order. -/
def runs (p : Char → Bool) (s : Str) : List Str :=
  runsFuel p s.length s

/-- Python `str.split()` (split on whitespace, dropping empty fields). -/
def splitWs (s : Str) : List Str :=
  runs (fun c => !isWs c) s

/-- Python `" ".join(parts)`. -/
def joinSpace (parts : List Str) : Str :=
  List.intercalate [' '] parts

/-- Substring test: Python `needle in haystack`. -/
def strContains (haystack needle : Str) : Bool :=
  (List.range (haystack.length + 1)).any fun i =>
    needle.isPrefixOf (haystack.drop i)

/-- Fuelled body of Python `str.replace` (all occurrences, left to right,
skipping past each replaced occurrence). -/
def replaceAllFuel (pat rep : Str) : ℕ → Str → Str
  | 0, s => s
  | fuel + 1, s =>
    match s with
    | [] => []
    | c :: cs =>
      if pat.isPrefixOf s then rep ++ replaceAllFuel pat rep fuel (s.drop pat.length)
      else c :: replaceAllFuel pat rep fuel cs

/-- Python `haystack.replace(pat, rep)` for the non-empty patterns this
code base uses (the configured phrases are all non-empty). -/
def replaceAll (s pat rep : Str) : Str :=
  if pat = [] then s else replaceAllFuel pat rep s.length s

/-! ## Chunker — `KnowledgeStore._chunk_text` (shared_data.py:515-531)

The Python loop is

    start = 0
    while start < len(text):
        end = start + chunk_size
        chunks.append(text[start:end])
        start = end - chunk_overlap

`chunkLoop` is this loop with an explicit fuel; the boolean result records
whether the loop condition became false within the given fuel (`false`
means the Python loop would still be running). Negative `start` cannot
arise while the loop makes progress, so `ℕ` positions are faithful on
every terminating run. -/

def chunkLoop (chunkSize chunkOverlap : ℕ) (text : Str) : ℕ → ℕ → List Str × Bool
  | 0, start => ([], decide (text.length ≤ start))
  | fuel + 1, start =>
    if start < text.length then
      let chunk := (text.drop start).take chunkSize
      let r := chunkLoop chunkSize chunkOverlap text fuel (start + chunkSize - chunkOverlap)
      (chunk :: r.1, r.2)
    else ([], true)

/-- `KnowledgeStore._chunk_text` with the configured chunk size/overlap.
Fuel `text.length` suffices whenever `chunk_overlap < chunk_size`
(claim C10). -/
def chunkText (chunkSize chunkOverlap : ℕ) (text : Str) : List Str :=
  if text.length ≤ chunkSize then [text]
  else (chunkLoop chunkSize chunkOverlap text text.length 0).1

theorem chunkLoop_finishes (cs ov : ℕ) (text : Str) (hov : ov < cs) :
    ∀ (fuel start : ℕ), text.length ≤ start + fuel →
      (chunkLoop cs ov text fuel start).2 = true := by
  intro fuel
  induction fuel with
  | zero =>
    intro start h
    simpa [chunkLoop] using h
  | succ n ih =>
    intro start h
    by_cases hs : start < text.length
    · have hstep : start + 1 ≤ start + cs - ov := by omega
      have : text.length ≤ (start + cs - ov) + n := by omega
      simp only [chunkLoop, hs, if_pos]
      exact ih _ this
    · simp [chunkLoop, hs]

theorem chunkLoop_stuck (cs ov : ℕ) (text : Str) (hov : cs ≤ ov) :
    ∀ (fuel start : ℕ), start < text.length →
      (chunkLoop cs ov text fuel start).2 = false := by
  intro fuel
  induction fuel with
  | zero =>
    intro start h
    simp [chunkLoop]
    omega
  | succ n ih =>
    intro start h
    have hstep : start + cs - ov ≤ start := by omega
    simp only [chunkLoop, h, if_pos]
    exact ih _ (by omega)

/-- **C10.** The chunker's loop terminates for every text whenever
`chunk_overlap < chunk_size`: the window start advances by the strictly
positive `chunk_size - chunk_overlap` each iteration, and
`text.length` iterations always suffice. The precondition is essential:
when `chunk_overlap ≥ chunk_size` the start does not advance
(`start + chunk_size - chunk_overlap ≤ start`) and the loop never
finishes, for any amount of fuel, as soon as `start < len(text)` —
which is the entry condition whenever `len(text) > chunk_size`. -/
theorem chunker_termination (cs ov : ℕ) (text : Str) :
    (ov < cs → (chunkLoop cs ov text text.length 0).2 = true) ∧
    (cs ≤ ov → ∀ start : ℕ, start + cs - ov ≤ start) ∧
    (cs ≤ ov → text.length > cs →
      ∀ fuel : ℕ, (chunkLoop cs ov text fuel 0).2 = false) := by
  refine ⟨fun hov => chunkLoop_finishes cs ov text hov _ 0 (by omega),
          fun hle start => by omega,
          fun hle hlen fuel => chunkLoop_stuck cs ov text hle fuel 0 (by omega)⟩

theorem chunker_termination_witness :
    (chunkLoop 10 5 ('a' :: List.replicate 11 'b') ('a' :: List.replicate 11 'b').length 0).2 = true ∧
    (0 + 5 - 10 ≤ 0) ∧
    (chunkLoop 5 10 ['a', 'b', 'c', 'd', 'e', 'f'] 20 0).2 = false :=
  ⟨(chunker_termination 10 5 _).1 (by decide),
   (chunker_termination 5 10 ['a', 'b', 'c', 'd', 'e', 'f']).2.1 (by decide) 0,
   (chunker_termination 5 10 _).2.2 (by decide) (by decide) 20⟩

/-! ## C4 — overlap between consecutive chunks -/

theorem chunkLoop_getD (cs ov : ℕ) (text : Str) (hov : ov < cs) :
    ∀ (fuel start i : ℕ), i < ((chunkLoop cs ov text fuel start).1).length →
      ((chunkLoop cs ov text fuel start).1).getD i []
        = (text.drop (start + i * (cs - ov))).take cs := by
  intro fuel
  induction fuel with
  | zero =>
    intro start i h
    simp [chunkLoop] at h
  | succ n ih =>
    intro start i h
    by_cases hs : start < text.length
    · simp only [chunkLoop, hs, if_pos] at h ⊢
      cases i with
      | zero => simp
      | succ j =>
        simp only [List.length_cons, Nat.succ_lt_succ_iff] at h
        have := ih (start + cs - ov) j h
        simp only [List.getD_cons_succ]
        rw [this]
        have harith : start + cs - ov + j * (cs - ov) = start + (j + 1) * (cs - ov) := by
          have : ov ≤ cs := Nat.le_of_lt hov
          ring_nf
          omega
        rw [harith]
    · simp [chunkLoop, hs] at h

/-- **C4 counterexample.** With `chunk_size = 10`, `overlap = 5` and the
12-character text `"abcdefghijkl"` (so `len(text) > chunk_size` and
`0 ≤ overlap < chunk_size`), the chunker returns
`["abcdefghij", "fghijkl", "kl"]`; the last 5 characters of the second
chunk (`"hijkl"`) are not the first 5 characters of the third chunk
(`"kl"`), so consecutive chunks do not always share exactly `overlap`
characters. -/
theorem chunk_overlap_counterexample :
    (5 < 10 ∧ (['a','b','c','d','e','f','g','h','i','j','k','l'] : Str).length > 10) ∧
    chunkText 10 5 ['a','b','c','d','e','f','g','h','i','j','k','l']
      = [['a','b','c','d','e','f','g','h','i','j'], ['f','g','h','i','j','k','l'], ['k','l']] ∧
    ¬ (let l := chunkText 10 5 ['a','b','c','d','e','f','g','h','i','j','k','l']
       (l.getD 1 []).drop ((l.getD 1 []).length - 5) = (l.getD 2 []).take 5) := by
  refine ⟨by decide, by decide, ?_⟩
  intro h
  simp only [] at h
  revert h
  decide

/-- **C4 (amended).** For `overlap < chunk_size`, every pair of
consecutive chunks *whose earlier chunk has full length `chunk_size`*
shares exactly `overlap` characters: the last `overlap` characters of
that chunk equal the first `overlap` characters of the next chunk (and
that shared prefix really has length `overlap`). Pairs following a
truncated chunk — which arise only at the very end of the text, as in
the counterexample — may share a different amount. -/
theorem chunk_overlap_amended (cs ov : ℕ) (text : Str) (i : ℕ)
    (hov : ov < cs)
    (hpair : i + 1 < (chunkText cs ov text).length)
    (hfull : ((chunkText cs ov text).getD i []).length = cs) :
    ((chunkText cs ov text).getD i []).drop
        (((chunkText cs ov text).getD i []).length - ov)
      = ((chunkText cs ov text).getD (i + 1) []).take ov ∧
    (((chunkText cs ov text).getD (i + 1) []).take ov).length = ov := by
  unfold chunkText at *
  by_cases hlen : text.length ≤ cs
  · simp [hlen] at hpair
  · simp only [hlen, if_neg, if_false] at hpair hfull ⊢
    have h1 : i < ((chunkLoop cs ov text text.length 0).1).length := by omega
    have e1 := chunkLoop_getD cs ov text hov text.length 0 i h1
    have e2 := chunkLoop_getD cs ov text hov text.length 0 (i + 1) hpair
    rw [e1] at hfull ⊢
    rw [e2]
    -- abbreviations for the two window starts
    set s := 0 + i * (cs - ov) with hs
    have hs' : 0 + (i + 1) * (cs - ov) = s + (cs - ov) := by
      simp [hs]; ring
    rw [hs']
    have hfull' : s + cs ≤ text.length := by
      have := hfull
      simp only [List.length_take, List.length_drop] at this
      omega
    constructor
    · have hL : ((text.drop s).take cs).length = cs := hfull
      rw [hL]
      rw [List.drop_take, List.drop_drop]
      rw [List.take_take]
      have : cs - (cs - ov) = ov := by omega
      rw [this]
      have : min ov cs = ov := by omega
      rw [this]
    · simp only [List.length_take, List.length_drop]
      omega

/-! ## Data model — `KnowledgeItem` (shared_data.py:122-144) -/

structure KnowledgeItem where
  id : Str
  question : Str
  answer : Str
  keywords : List Str
  category : Str
  score : ℚ := 1
  deriving Repr, DecidableEq

/-! ## Confidence — `KnowledgeStore._compute_confidence` (shared_data.py:623-651) -/

/-- The code's `max(0.0, min(x, 1.0))` clamp on each bonus term. -/
def clamp01 (x : ℚ) : ℚ := max 0 (min x 1)

/-- The code's final two-step clamp of the confidence to `[0, 1]`. -/
def clampFinal (c : ℚ) : ℚ :=
  let c' := if c < 0 then 0 else c
  if c' > 1 then 1 else c'

def computeConfidence (query : Str) (results : List (KnowledgeItem × ℚ)) : ℚ :=
  match results with
  | [] => 0
  | (item, top1) :: rest =>
    let gap : ℚ := ((rest.head?.map fun p => top1 - p.2).getD 0)
    let keywords := item.keywords.filter (· ≠ [])
    let keywordCover : ℚ :=
      if keywords ≠ [] then
        let denom := min keywords.length 6
        let hit := ((keywords.take denom).filter (fun kw => strContains query kw)).length
        (hit : ℚ) / ((max 1 denom : ℕ) : ℚ)
      else 0
    let topKBonus : ℚ :=
      if 2 ≤ results.length then (((min results.length 5 : ℕ) : ℚ) - 1) / 4 else 0
    clampFinal (top1 + 15/100 * clamp01 gap + 8/100 * clamp01 keywordCover
      + 4/100 * clamp01 topKBonus)

theorem clamp01_mono {x y : ℚ} (h : x ≤ y) : clamp01 x ≤ clamp01 y :=
  max_le_max le_rfl (min_le_min h le_rfl)

theorem clampFinal_mem (c : ℚ) : 0 ≤ clampFinal c ∧ clampFinal c ≤ 1 := by
  unfold clampFinal
  dsimp only
  split_ifs <;> constructor <;> linarith

theorem clampFinal_mono {c d : ℚ} (h : c ≤ d) : clampFinal c ≤ clampFinal d := by
  unfold clampFinal
  dsimp only
  split_ifs <;> linarith

/-- **C8.** The confidence computation (i) returns exactly 0 on an empty
result list, (ii) always lies in `[0, 1]`, and (iii) is monotonically
non-decreasing in the top-1 score when the rest of the result list (hence
the rank-2 score and the result count) and the top item (hence its
keyword coverage) are held fixed. -/
theorem confidence_bounds_monotone :
    (∀ q : Str, computeConfidence q [] = 0) ∧
    (∀ (q : Str) (rs : List (KnowledgeItem × ℚ)),
      0 ≤ computeConfidence q rs ∧ computeConfidence q rs ≤ 1) ∧
    (∀ (q : Str) (item : KnowledgeItem) (rest : List (KnowledgeItem × ℚ)) (s₁ s₂ : ℚ),
      s₁ ≤ s₂ →
      computeConfidence q ((item, s₁) :: rest) ≤ computeConfidence q ((item, s₂) :: rest)) := by
  refine ⟨fun _ => rfl, ?_, ?_⟩
  · intro q rs
    match rs with
    | [] => exact ⟨le_refl 0, by norm_num [computeConfidence]⟩
    | (item, top1) :: rest => exact clampFinal_mem _
  · intro q item rest s₁ s₂ h
    simp only [computeConfidence]
    refine clampFinal_mono ?_
    have hgap : ((rest.head?.map fun p => s₁ - p.2).getD 0)
        ≤ ((rest.head?.map fun p => s₂ - p.2).getD 0) := by
      cases rest.head? with
      | none => exact le_refl 0
      | some p => simpa using h
    have hc := clamp01_mono hgap
    simp only [List.length_cons]
    linarith [hc]

theorem confidence_bounds_monotone_witness :
    ((1 : ℚ)/4 ≤ 1/2) ∧
    computeConfidence [] [(⟨[], [], [], [], [], 1⟩, 1/4)]
      ≤ computeConfidence [] [(⟨[], [], [], [], [], 1⟩, 1/2)] :=
  ⟨by norm_num,
   confidence_bounds_monotone.2.2 [] ⟨[], [], [], [], [], 1⟩ [] (1/4) (1/2) (by norm_num)⟩

/-! ## Association-list model of Python `dict` (insertion-ordered) -/

def alistGet {α β : Type} [DecidableEq α] (l : List (α × β)) (k : α) : Option β :=
  (l.find? (fun e => e.1 = k)).map (·.2)

def alistSet {α β : Type} [DecidableEq α] : List (α × β) → α → β → List (α × β)
  | [], k, v => [(k, v)]
  | e :: rest, k, v => if e.1 = k then (k, v) :: rest else e :: alistSet rest k v

def alistErase {α β : Type} [DecidableEq α] : List (α × β) → α → List (α × β)
  | [], _ => []
  | e :: rest, k => if e.1 = k then rest else e :: alistErase rest k

/-! ## Vector Index — `VectorStore` (vector_store.py)

The state carries the FAISS index contents explicitly: `flat` is the
`IndexIDMap2`-wrapped flat index (pairs of internal id and stored
vector), `seqVecs` are the vectors inside a native HNSW or trained-IVF
index (whose FAISS ids are sequential), `pending` is the
`_pending_vectors` buffer of an untrained IVF index. L2 normalisation
(`faiss.normalize_L2`) is a positive rescaling that the similarity
kernels of the claims are invariant under, so vectors are stored as
given. Embedding-model bookkeeping (`_built_embedding_model`) is not
modelled: no claim mentions it. -/

abbrev Vec := List ℚ

inductive IndexType where
  | flat
  | ivf
  | hnsw
  | auto
  deriving Repr, DecidableEq

/-- `op` field of a recorded `dimension_mismatch` error. -/
inductive VOp where
  | add_vector
  | search
  deriving Repr, DecidableEq

/-- The only error value the code ever stores in `_last_error`
(`{"type": "dimension_mismatch", "expected": .., "actual": .., "op": ..}`). -/
structure DimErr where
  expected : ℕ
  actual : ℕ
  op : VOp
  deriving Repr, DecidableEq

structure VectorStore where
  dimension : ℕ
  indexType : IndexType
  nlist : ℕ
  flat : List (ℕ × Vec)
  seqVecs : List Vec
  idMap : List (ℕ × Str)
  revMap : List (Str × ℕ)
  nextId : ℕ
  isTrained : Bool
  pending : List (ℕ × Vec)
  lastError : Option DimErr
  deriving Repr, DecidableEq

/-- `self._index.ntotal` of the live FAISS index. Pending vectors of an
untrained IVF index are *not* in the FAISS index, hence not counted. -/
def VectorStore.ntotal (st : VectorStore) : ℕ :=
  match st.indexType with
  | .flat => st.flat.length
  | _ => st.seqVecs.length

/-- Auto-selection of the index strategy from the expected count
(`INDEX_THRESHOLD_IVF = 1000`, `INDEX_THRESHOLD_HNSW = 50000`). -/
def resolveIndexType (t : IndexType) (expectedCount : ℕ) : IndexType :=
  match t with
  | .auto =>
    if expectedCount ≥ 50000 then .hnsw
    else if expectedCount ≥ 1000 then .ivf
    else .flat
  | other => other

/-- `int(np.sqrt(n))`: the integer square root, as an executable fold. -/
def intSqrt (n : ℕ) : ℕ :=
  (List.range (n + 1)).foldl (fun acc k => if k * k ≤ n then max acc k else acc) 0

/-- `nlist = max(16, min(256, int(np.sqrt(max(expected_count, 1000)))))`. -/
def ivfNlist (expectedCount : ℕ) : ℕ :=
  max 16 (min 256 (intSqrt (max expectedCount 1000)))

/-- `VectorStore._create_index`: fresh (empty) FAISS index of the given
dimension; `_pending_vectors` cleared, `_is_trained` set per strategy.
The id maps, `_next_id` and `_last_error` are *not* touched (the code
does not clear them here). -/
def VectorStore.createIndex (st : VectorStore) (dimension : ℕ)
    (indexType : IndexType) (expectedCount : ℕ) : VectorStore :=
  let t := resolveIndexType indexType expectedCount
  { st with
    dimension := dimension
    indexType := t
    nlist := if t = .ivf then ivfNlist expectedCount else 0
    flat := []
    seqVecs := []
    pending := []
    isTrained := t ≠ .ivf }

/-- `VectorStore.remove_vector`: logical removal from the id maps and the
pending buffer; only the Flat strategy also removes from the FAISS
index (`remove_ids`). -/
def VectorStore.removeVector (st : VectorStore) (itemId : Str) : VectorStore × Bool :=
  match alistGet st.revMap itemId with
  | none => (st, false)
  | some internalId =>
    let st₁ :=
      if st.indexType = .flat then
        { st with flat := st.flat.filter (fun e => e.1 ≠ internalId) }
      else st
    let st₂ := { st₁ with pending := st₁.pending.filter (fun e => e.1 ≠ internalId) }
    ({ st₂ with
        idMap := alistErase st₂.idMap internalId
        revMap := alistErase st₂.revMap itemId }, true)

/-- Body of `VectorStore.add_vector` after the dimension check (replace
any existing record, allocate the next internal id, insert into the
strategy's live structure or the pending buffer, update both maps). -/
def VectorStore.addVectorCore (st : VectorStore) (itemId : Str) (vector : Vec) :
    VectorStore × Bool :=
  let st₁ := if alistGet st.revMap itemId ≠ none then (st.removeVector itemId).1 else st
  let internalId := st₁.nextId
  let st₂ := { st₁ with nextId := st₁.nextId + 1 }
  let st₃ :=
    if st₂.indexType = .ivf ∧ st₂.isTrained = false then
      { st₂ with pending := st₂.pending ++ [(internalId, vector)] }
    else if st₂.indexType = .hnsw then
      { st₂ with seqVecs := st₂.seqVecs ++ [vector] }
    else if st₂.indexType = .flat then
      { st₂ with flat := st₂.flat ++ [(internalId, vector)] }
    else
      { st₂ with seqVecs := st₂.seqVecs ++ [vector] }
  ({ st₃ with
      idMap := alistSet st₃.idMap internalId itemId
      revMap := alistSet st₃.revMap itemId internalId }, true)

/-- `VectorStore.add_vector` (vector_store.py:251-316). On a dimension
mismatch: if the FAISS index is empty (`ntotal == 0`), the index is
recreated at the new dimension and the add proceeds; otherwise a
`dimension_mismatch` last-error is recorded and the call fails. -/
def VectorStore.addVector (st : VectorStore) (itemId : Str) (vector : Vec) :
    VectorStore × Bool :=
  if vector = [] then (st, false)
  else if vector.length ≠ st.dimension then
    if st.ntotal = 0 then
      VectorStore.addVectorCore (st.createIndex vector.length .auto 0) itemId vector
    else
      ({ st with lastError := some ⟨st.dimension, vector.length, VOp.add_vector⟩ }, false)
  else VectorStore.addVectorCore st itemId vector

/-- Training step of `VectorStore.train_index` once the training set is
collected: fails if fewer than `max(nlist, 39)` samples; on success the
pending buffer is flushed into the live index. -/
def VectorStore.trainWith (st : VectorStore) (vs : List Vec) : VectorStore × Bool :=
  let minTrainSize := max st.nlist 39
  if vs.length < minTrainSize then (st, false)
  else
    ({ st with
        isTrained := true
        seqVecs := st.seqVecs ++ st.pending.map (·.2)
        pending := [] }, true)

/-- `VectorStore.train_index` (vector_store.py:318-366). -/
def VectorStore.trainIndex (st : VectorStore) (vectors : Option (List Vec)) :
    VectorStore × Bool :=
  if st.indexType ≠ .ivf then (st, true)
  else if st.isTrained then (st, true)
  else
    match vectors with
    | none =>
      if st.pending = [] then (st, false)
      else VectorStore.trainWith st (st.pending.map (·.2))
    | some vs => VectorStore.trainWith st vs

/-- `k == prefix or k.startswith(prefix)`. -/
def idMatches (k pre : Str) : Bool :=
  k = pre || List.isPrefixOf pre k

/-- The loop of `remove_vectors_by_prefix` over the snapshot of keys. -/
def removeLoop (pre : Str) : VectorStore × ℕ → List Str → VectorStore × ℕ
  | acc, [] => acc
  | acc, k :: ks =>
    removeLoop pre
      (if idMatches k pre then
        let r := VectorStore.removeVector acc.1 k
        (r.1, acc.2 + (if r.2 then 1 else 0))
      else acc) ks

/-- `VectorStore.remove_vectors_by_prefix`: iterate over a snapshot of the
knowledge-ID keys, removing every record whose ID equals or starts with
the given string. -/
def VectorStore.removeVectorsByPrefix (st : VectorStore) (pre : Str) : VectorStore × ℕ :=
  if pre = [] then (st, 0)
  else removeLoop pre (st, 0) (st.revMap.map (·.1))

/-- Stable insertion into a list sorted descending by score (`list.sort`
with `reverse=True` is a stable descending sort). -/
def insertDesc {α : Type} (x : α × ℚ) : List (α × ℚ) → List (α × ℚ)
  | [] => [x]
  | y :: ys => if x.2 ≥ y.2 then x :: y :: ys else y :: insertDesc x ys

def sortDescBy {α : Type} (l : List (α × ℚ)) : List (α × ℚ) :=
  l.foldr insertDesc []

/-- `VectorStore._search_pending_vectors` (vector_store.py:501-517):
brute-force scoring of the pending buffer. `sim v` stands for the
floating-point kernel `np.dot(v, query/(‖query‖ + 1e-9))` — cosine
similarity of the stored vector with the query. -/
def VectorStore.searchPendingVectors (st : VectorStore) (sim : Vec → ℚ) (topK : ℕ) :
    List (Str × ℚ) :=
  if st.pending = [] then []
  else
    let scores := st.pending.filterMap fun e =>
      (alistGet st.idMap e.1).bind fun kid =>
        if kid = [] then none else some (kid, sim e.2)
    (sortDescBy scores).take topK

/-- Post-processing of the raw FAISS hit list in `VectorStore.search`:
skip id `-1`, resolve internal ids through `_id_map`, stop at `top_k`. -/
def collectHits (st : VectorStore) (topK : ℕ) :
    List (ℤ × ℚ) → List (Str × ℚ) → List (Str × ℚ)
  | [], acc => acc
  | (iid, dist) :: rest, acc =>
    if iid = -1 then collectHits st topK rest acc
    else
      match (if iid < 0 then none else alistGet st.idMap iid.toNat) with
      | none => collectHits st topK rest acc
      | some kid =>
        if kid = [] then collectHits st topK rest acc
        else
          let acc' := acc ++ [(kid, dist)]
          if topK ≤ acc'.length then acc' else collectHits st topK rest acc'

/-- `VectorStore.search` (vector_store.py:412-499). `native` is the
oracle for the opaque FAISS `index.search` call (pairs of internal id
and inner-product score); `sim` is the similarity kernel used by the
pending-buffer fallback. -/
def VectorStore.search (st : VectorStore) (native : Vec → ℕ → List (ℤ × ℚ))
    (sim : Vec → ℚ) (queryVector : Vec) (topK : ℕ) :
    List (Str × ℚ) × VectorStore :=
  if queryVector = [] then ([], st)
  else if queryVector.length ≠ st.dimension then
    ([], { st with lastError := some ⟨st.dimension, queryVector.length, VOp.search⟩ })
  else if st.ntotal = 0 then ([], st)
  else if st.indexType = .ivf ∧ st.isTrained = false then
    (st.searchPendingVectors sim topK, st)
  else
    let k := min (topK * 2) st.ntotal
    (collectHits st topK (native queryVector k) [], st)

/-! ## C1 — `add_vector` dimension mismatch -/

theorem removeVector_dimension (st : VectorStore) (itemId : Str) :
    (st.removeVector itemId).1.dimension = st.dimension := by
  unfold VectorStore.removeVector
  cases alistGet st.revMap itemId with
  | none => rfl
  | some iid =>
    dsimp only
    split_ifs <;> rfl

theorem addVectorCore_snd (st : VectorStore) (itemId : Str) (v : Vec) :
    (VectorStore.addVectorCore st itemId v).2 = true := rfl

theorem addVectorCore_dimension (st : VectorStore) (itemId : Str) (v : Vec) :
    (VectorStore.addVectorCore st itemId v).1.dimension = st.dimension := by
  unfold VectorStore.addVectorCore
  dsimp only
  split_ifs <;> simp [removeVector_dimension]

/-- **C1.** `add_vector(id, v)` with `len(v)` different from the index's
dimension (and `v` non-empty): if the FAISS index is empty
(`ntotal == 0`, the code's emptiness test) the index is silently
recreated at dimension `len(v)` and the add succeeds; otherwise the call
returns `False` and the resulting state is exactly the old state with a
`dimension_mismatch{expected = index dimension, actual = len(v)}`
last-error recorded — in particular no record for `id` is added and no
other field changes. -/
theorem addVector_dimension_mismatch (st : VectorStore) (itemId : Str) (v : Vec)
    (hv : v ≠ []) (hd : v.length ≠ st.dimension) :
    (st.ntotal = 0 →
      (st.addVector itemId v).2 = true ∧
      (st.addVector itemId v).1.dimension = v.length) ∧
    (st.ntotal ≠ 0 →
      st.addVector itemId v
        = ({ st with lastError := some ⟨st.dimension, v.length, VOp.add_vector⟩ }, false)) := by
  constructor
  · intro h0
    unfold VectorStore.addVector
    rw [if_neg hv, if_pos hd, if_pos h0]
    refine ⟨addVectorCore_snd _ _ _, ?_⟩
    rw [addVectorCore_dimension]
    simp [VectorStore.createIndex]
  · intro h0
    unfold VectorStore.addVector
    rw [if_neg hv, if_pos hd, if_neg h0]

theorem addVector_dimension_mismatch_witness :
    ((([1, 0] : Vec) ≠ [] ∧ ([1, 0] : Vec).length ≠
        (⟨4, .flat, 0, [], [], [], [], 0, true, [], none⟩ : VectorStore).dimension ∧
      (⟨4, .flat, 0, [], [], [], [], 0, true, [], none⟩ : VectorStore).ntotal = 0) ∧
      ((VectorStore.addVector ⟨4, .flat, 0, [], [], [], [], 0, true, [], none⟩ ['x'] [1, 0]).2 = true ∧
       (VectorStore.addVector ⟨4, .flat, 0, [], [], [], [], 0, true, [], none⟩ ['x'] [1, 0]).1.dimension
          = ([1, 0] : Vec).length)) ∧
    ((⟨2, .flat, 0, [(0, [1, 0])], [], [(0, ['a'])], [(['a'], 0)], 1, true, [], none⟩ : VectorStore).ntotal ≠ 0 ∧
      VectorStore.addVector
          ⟨2, .flat, 0, [(0, [1, 0])], [], [(0, ['a'])], [(['a'], 0)], 1, true, [], none⟩ ['b'] [1, 2, 3]
        = (⟨2, .flat, 0, [(0, [1, 0])], [], [(0, ['a'])], [(['a'], 0)], 1, true, [],
            some ⟨2, 3, VOp.add_vector⟩⟩, false)) :=
  ⟨⟨⟨by decide, by decide, by decide⟩,
    (addVector_dimension_mismatch _ ['x'] [1, 0] (by decide) (by decide)).1 (by decide)⟩,
   ⟨by decide,
    (addVector_dimension_mismatch _ ['b'] [1, 2, 3] (by decide) (by decide)).2 (by decide)⟩⟩

/-! ## C3 — untrained IVF: training failure and the dead pending-search path -/

theorem insertDesc_length {α : Type} (x : α × ℚ) (l : List (α × ℚ)) :
    (insertDesc x l).length = l.length + 1 := by
  induction l with
  | nil => rfl
  | cons y ys ih =>
    unfold insertDesc
    split_ifs <;> simp [ih]

theorem sortDescBy_length {α : Type} (l : List (α × ℚ)) :
    (sortDescBy l).length = l.length := by
  unfold sortDescBy
  induction l with
  | nil => rfl
  | cons y ys ih => simp [insertDesc_length, ih]

/-- Fresh store, then a forced IVF index of dimension 2 with two vectors
added while untrained — both land in the pending buffer, the FAISS index
itself stays empty (`ntotal = 0`). -/
def vsC3 : VectorStore :=
  (((VectorStore.createIndex ⟨2, .flat, 0, [], [], [], [], 0, true, [], none⟩ 2 .ivf 0).addVector
      ['a'] [1, 0]).1.addVector ['b'] [0, 1]).1

set_option maxRecDepth 100000 in
/-- **C3 (code bug).** In the clustered-untrained state with two pending
vectors: `train()` (with fewer than the required `max(nlist, 39)`
samples) correctly returns failure leaving the state — trained flag and
pending buffer — unchanged, as the claim says. But `search` (for every
similarity kernel and every FAISS oracle) returns `[]` and not the
brute-force ranking of the pending buffer: the `ntotal == 0` early-exit
guard precedes the untrained-IVF branch, and an untrained IVF index
always has `ntotal = 0` (vectors only ever reach the native index at
training time), so `_search_pending_vectors` — whose own result on this
state has the two pending records for every kernel, shown in the last
conjunct — is unreachable. -/
theorem ivf_untrained_search_bug :
    vsC3.indexType = .ivf ∧ vsC3.isTrained = false ∧ vsC3.pending.length = 2 ∧
    vsC3.pending.length < max vsC3.nlist 39 ∧
    VectorStore.trainIndex vsC3 none = (vsC3, false) ∧
    (∀ (native : Vec → ℕ → List (ℤ × ℚ)) (sim : Vec → ℚ),
      VectorStore.search vsC3 native sim [1, 0] 5 = ([], vsC3)) ∧
    (∀ sim : Vec → ℚ,
      VectorStore.searchPendingVectors vsC3 sim 5
        = if sim [0, 1] ≤ sim [1, 0] then [(['a'], sim [1, 0]), (['b'], sim [0, 1])]
          else [(['b'], sim [0, 1]), (['a'], sim [1, 0])]) := by
  refine ⟨by decide, by decide, by decide, by decide, by decide, ?_, ?_⟩
  · intro native sim
    unfold VectorStore.search
    rw [if_neg (by decide), if_neg (by decide), if_pos (by decide)]
  · intro sim
    have hp : vsC3.pending = [(0, [1, 0]), (1, [0, 1])] := by decide
    have hid : vsC3.idMap = [(0, ['a']), (1, ['b'])] := by decide
    unfold VectorStore.searchPendingVectors
    rw [if_neg (by decide)]
    simp only [hp, hid, List.filterMap, alistGet, List.find?, sortDescBy, List.foldr,
      insertDesc, Option.map, Option.bind]
    split_ifs <;> simp

theorem chunk_overlap_amended_witness :
    (5 < 10 ∧
      0 + 1 < (chunkText 10 5 ['a','b','c','d','e','f','g','h','i','j','k','l']).length ∧
      ((chunkText 10 5 ['a','b','c','d','e','f','g','h','i','j','k','l']).getD 0 []).length = 10) ∧
    ((chunkText 10 5 ['a','b','c','d','e','f','g','h','i','j','k','l']).getD 0 []).drop
        (((chunkText 10 5 ['a','b','c','d','e','f','g','h','i','j','k','l']).getD 0 []).length - 5)
      = ((chunkText 10 5 ['a','b','c','d','e','f','g','h','i','j','k','l']).getD 1 []).take 5 ∧
    (((chunkText 10 5 ['a','b','c','d','e','f','g','h','i','j','k','l']).getD 1 []).take 5).length = 5 :=
  ⟨⟨by decide, by decide, by decide⟩,
   (chunk_overlap_amended 10 5 ['a','b','c','d','e','f','g','h','i','j','k','l'] 0
      (by decide) (by decide) (by decide)).1,
   (chunk_overlap_amended 10 5 ['a','b','c','d','e','f','g','h','i','j','k','l'] 0
      (by decide) (by decide) (by decide)).2⟩

/-! ## C7 — `remove_by_prefix` removes exactly the matching records -/

theorem alistGet_mem {α β : Type} [DecidableEq α] {l : List (α × β)} {k : α} {v : β}
    (h : alistGet l k = some v) : (k, v) ∈ l := by
  unfold alistGet at h
  cases hf : l.find? (fun e => e.1 = k) with
  | none => rw [hf] at h; simp at h
  | some e =>
    rw [hf] at h
    have h2 : e.2 = v := by simpa using h
    have hm := List.mem_of_find?_eq_some hf
    have hp := List.find?_some hf
    simp only [decide_eq_true_eq] at hp
    obtain ⟨e1, e2⟩ := e
    cases h2
    cases hp
    exact hm

theorem alistGet_of_mem_nodupKeys {α β : Type} [DecidableEq α] {l : List (α × β)}
    (hn : (l.map Prod.fst).Nodup) {e : α × β} (he : e ∈ l) :
    alistGet l e.1 = some e.2 := by
  induction l with
  | nil => cases he
  | cons x xs ih =>
    simp only [List.map_cons, List.nodup_cons] at hn
    rcases List.mem_cons.mp he with h | h
    · subst h
      unfold alistGet
      rw [List.find?_cons_of_pos _ (by simp)]
      rfl
    · have hne : x.1 ≠ e.1 := by
        intro hcontra
        apply hn.1
        rw [hcontra]
        exact List.mem_map_of_mem Prod.fst h
      unfold alistGet
      rw [List.find?_cons_of_neg _ (by simpa using hne)]
      exact ih hn.2 h

theorem alistGet_filter_ne {α β : Type} [DecidableEq α] (l : List (α × β)) (x y : α)
    (hxy : y ≠ x) :
    alistGet (l.filter (fun e => e.1 ≠ x)) y = alistGet l y := by
  induction l with
  | nil => rfl
  | cons e es ih =>
    by_cases hex : e.1 = x
    · rw [List.filter_cons_of_neg (by simpa using hex), ih]
      unfold alistGet
      rw [List.find?_cons_of_neg _ (by
        simp only [decide_eq_true_eq]
        intro hc
        exact hxy (hc ▸ hex))]
    · rw [List.filter_cons_of_pos (by simpa using hex)]
      by_cases hey : e.1 = y
      · unfold alistGet
        rw [List.find?_cons_of_pos _ (by simp [hey]),
            List.find?_cons_of_pos _ (by simp [hey])]
      · unfold alistGet
        rw [List.find?_cons_of_neg _ (by simp [hey]),
            List.find?_cons_of_neg _ (by simp [hey])]
        exact ih

theorem alistErase_eq_filter {α β : Type} [DecidableEq α] {l : List (α × β)}
    (hn : (l.map Prod.fst).Nodup) (k : α) :
    alistErase l k = l.filter (fun e => e.1 ≠ k) := by
  induction l with
  | nil => rfl
  | cons e es ih =>
    simp only [List.map_cons, List.nodup_cons] at hn
    by_cases hek : e.1 = k
    · simp only [alistErase, List.filter_cons]
      rw [if_pos hek, if_neg (by simpa using hek)]
      symm
      apply List.filter_eq_self.mpr
      intro a ha
      simp only [decide_eq_true_eq]
      intro hak
      exact hn.1 (hek ▸ hak ▸ List.mem_map_of_mem Prod.fst ha)
    · simp only [alistErase, List.filter_cons]
      rw [if_neg hek, if_pos (by simpa using hek)]
      rw [ih hn.2]

theorem nodupKeys_filter {α β : Type} {l : List (α × β)}
    (hn : (l.map Prod.fst).Nodup) (p : α × β → Bool) :
    ((l.filter p).map Prod.fst).Nodup :=
  ((List.filter_sublist l).map Prod.fst).nodup hn

theorem removeVector_eq (st : VectorStore) (k : Str) (iid : ℕ)
    (h : alistGet st.revMap k = some iid) :
    st.removeVector k =
      ({ st with
          flat := if st.indexType = .flat
            then st.flat.filter (fun e => e.1 ≠ iid) else st.flat
          pending := st.pending.filter (fun e => e.1 ≠ iid)
          idMap := alistErase st.idMap iid
          revMap := alistErase st.revMap k }, true) := by
  unfold VectorStore.removeVector
  rw [h]
  dsimp only
  split_ifs <;> rfl

theorem removeLoop_spec (pre : Str) :
    ∀ (ks : List Str) (st : VectorStore) (n : ℕ),
      ks.Nodup →
      (∀ k ∈ ks, alistGet st.revMap k ≠ none) →
      (st.revMap.map Prod.fst).Nodup →
      (st.idMap.map Prod.fst).Nodup →
      (∀ e ∈ st.revMap, alistGet st.idMap e.2 = some e.1) →
      (∀ e ∈ st.idMap, alistGet st.revMap e.2 = some e.1) →
      (removeLoop pre (st, n) ks).2 = n + (ks.filter (fun k => idMatches k pre)).length ∧
      (removeLoop pre (st, n) ks).1.revMap
        = st.revMap.filter (fun e => !(decide (e.1 ∈ ks) && idMatches e.1 pre)) ∧
      (removeLoop pre (st, n) ks).1.idMap
        = st.idMap.filter (fun e => !(decide (e.2 ∈ ks) && idMatches e.2 pre)) ∧
      (removeLoop pre (st, n) ks).1.pending
        = st.pending.filter (fun e =>
            match alistGet st.idMap e.1 with
            | some id => !(decide (id ∈ ks) && idMatches id pre)
            | none => true) := by
  intro ks
  induction ks with
  | nil =>
    intro st n _ _ _ _ _ _
    refine ⟨by simp [removeLoop], by simp [removeLoop], by simp [removeLoop], ?_⟩
    simp only [removeLoop]
    symm
    apply List.filter_eq_self.mpr
    intro e _
    cases alistGet st.idMap e.1 <;> simp
  | cons k ks ih =>
    intro st n hnod hlive hrev hidm hbij₁ hbij₂
    obtain ⟨hknotin, hksnod⟩ := List.nodup_cons.mp hnod
    obtain ⟨iid, hk⟩ : ∃ iid, alistGet st.revMap k = some iid := by
      cases hg : alistGet st.revMap k with
      | none => exact absurd hg (hlive k (by simp))
      | some i => exact ⟨i, rfl⟩
    by_cases hm : idMatches k pre = true
    · -- matching key: one successful removal, then the loop on the rest
      have hrveq := removeVector_eq st k iid hk
      have hstep : removeLoop pre (st, n) (k :: ks)
          = removeLoop pre ((st.removeVector k).1, n + 1) ks := by
        simp [removeLoop, hm, hrveq]
      have hrev' : (st.removeVector k).1.revMap
          = st.revMap.filter (fun e => e.1 ≠ k) := by
        rw [hrveq]
        exact alistErase_eq_filter hrev k
      have hidm' : (st.removeVector k).1.idMap
          = st.idMap.filter (fun e => e.1 ≠ iid) := by
        rw [hrveq]
        exact alistErase_eq_filter hidm iid
      have hpend' : (st.removeVector k).1.pending
          = st.pending.filter (fun e => e.1 ≠ iid) := by
        rw [hrveq]
      have hkmem : (k, iid) ∈ st.revMap := alistGet_mem hk
      have hgetk : alistGet st.idMap iid = some k := hbij₁ (k, iid) hkmem
      have hlive' : ∀ k' ∈ ks, alistGet (st.removeVector k).1.revMap k' ≠ none := by
        intro k' hk'
        have hne : k' ≠ k := fun hc => hknotin (hc ▸ hk')
        rw [hrev', alistGet_filter_ne st.revMap k k' hne]
        exact hlive k' (by simp [hk'])
      have hrevN' : ((st.removeVector k).1.revMap.map Prod.fst).Nodup := by
        rw [hrev']; exact nodupKeys_filter hrev _
      have hidmN' : ((st.removeVector k).1.idMap.map Prod.fst).Nodup := by
        rw [hidm']; exact nodupKeys_filter hidm _
      have hbij₁' : ∀ e ∈ (st.removeVector k).1.revMap,
          alistGet (st.removeVector k).1.idMap e.2 = some e.1 := by
        intro e he
        rw [hrev'] at he
        have hmem := List.mem_of_mem_filter he
        have hef : e.1 ≠ k := by simpa using List.of_mem_filter he
        have heiid : e.2 ≠ iid := by
          intro hc
          have h1 := hbij₁ e hmem
          rw [hc, hgetk] at h1
          exact hef (by injection h1 with h1; exact h1.symm)
        rw [hidm', alistGet_filter_ne st.idMap iid e.2 heiid]
        exact hbij₁ e hmem
      have hbij₂' : ∀ e ∈ (st.removeVector k).1.idMap,
          alistGet (st.removeVector k).1.revMap e.2 = some e.1 := by
        intro e he
        rw [hidm'] at he
        have hmem := List.mem_of_mem_filter he
        have hef : e.1 ≠ iid := by simpa using List.of_mem_filter he
        have he2k : e.2 ≠ k := by
          intro hc
          have h2 := hbij₂ e hmem
          rw [hc, hk] at h2
          exact hef (by injection h2 with h2; exact h2.symm)
        rw [hrev', alistGet_filter_ne st.revMap k e.2 he2k]
        exact hbij₂ e hmem
      obtain ⟨ihc, ihr, ihi, ihp⟩ :=
        ih (st.removeVector k).1 (n + 1) hksnod hlive' hrevN' hidmN' hbij₁' hbij₂'
      refine ⟨?_, ?_, ?_, ?_⟩
      · rw [hstep, ihc]
        rw [show List.filter (fun k => idMatches k pre) (k :: ks)
              = k :: List.filter (fun k => idMatches k pre) ks from by
            simp [List.filter_cons, hm]]
        simp only [List.length_cons]
        omega
      · rw [hstep, ihr, hrev', List.filter_filter]
        apply List.filter_congr
        intro e _
        by_cases hek : e.1 = k
        · simp [hek, hm]
        · simp [List.mem_cons, hek]
      · rw [hstep, ihi, hidm', List.filter_filter]
        apply List.filter_congr
        intro e he
        by_cases he2 : e.2 = k
        · have h2 := hbij₂ e he
          rw [he2, hk] at h2
          have he1 : e.1 = iid := by injection h2 with h2; exact h2.symm
          simp [he1, he2, hm]
        · have he1 : e.1 ≠ iid := by
            intro hc
            have h3 := alistGet_of_mem_nodupKeys hidm he
            rw [hc, hgetk] at h3
            exact he2 (by injection h3 with h3; exact h3.symm)
          simp [List.mem_cons, he1, he2]
      · rw [hstep, ihp, hpend', List.filter_filter]
        apply List.filter_congr
        intro e _
        by_cases he1 : e.1 = iid
        · simp only [he1, hgetk]
          simp [hm]
        · have hscr : alistGet (st.removeVector k).1.idMap e.1
              = alistGet st.idMap e.1 := by
            rw [hidm']
            exact alistGet_filter_ne st.idMap iid e.1 he1
          rw [hscr]
          cases hg : alistGet st.idMap e.1 with
          | none => simp [hg, he1]
          | some id =>
            by_cases hidk : id = k
            · exfalso
              have hmem := alistGet_mem hg
              have h2 := hbij₂ (e.1, id) hmem
              rw [hidk, hk] at h2
              exact he1 (by injection h2 with h2; exact h2.symm)
            · simp [hg, he1, List.mem_cons, hidk]
    · -- non-matching key: the loop state is unchanged for this key
      have hstep : removeLoop pre (st, n) (k :: ks) = removeLoop pre (st, n) ks := by
        simp [removeLoop, hm]
      obtain ⟨ihc, ihr, ihi, ihp⟩ := ih st n hksnod
        (fun k' hk' => hlive k' (by simp [hk'])) hrev hidm hbij₁ hbij₂
      refine ⟨?_, ?_, ?_, ?_⟩
      · rw [hstep, ihc]
        rw [show List.filter (fun k => idMatches k pre) (k :: ks)
              = List.filter (fun k => idMatches k pre) ks from by
            simp [List.filter_cons, hm]]
      · rw [hstep, ihr]
        apply List.filter_congr
        intro e _
        by_cases hek : e.1 = k
        · simp [hek, hm]
        · simp [List.mem_cons, hek]
      · rw [hstep, ihi]
        apply List.filter_congr
        intro e _
        by_cases hek : e.2 = k
        · simp [hek, hm]
        · simp [List.mem_cons, hek]
      · rw [hstep, ihp]
        apply List.filter_congr
        intro e _
        cases hg : alistGet st.idMap e.1 with
        | none => simp [hg]
        | some id =>
          by_cases hidk : id = k
          · simp [hg, hidk, hm]
          · simp [hg, List.mem_cons, hidk]

/-- **C7.** For every non-empty `prefix` (with the two id maps forming a
well-formed bijection, as every reachable index state does):
`remove_by_prefix` returns exactly the number of live records whose ID
equals or starts with the prefix, the resulting knowledge-ID map is the
old one with exactly the matching entries removed (all non-matching
entries and their internal-id associations unchanged), the internal-ID
map loses exactly the entries for matching IDs, and the pending buffer
loses exactly the entries whose internal id resolves to a matching ID. -/
theorem removeVectorsByPrefix_spec (st : VectorStore) (pre : Str)
    (hpre : pre ≠ [])
    (hrev : (st.revMap.map Prod.fst).Nodup)
    (hidm : (st.idMap.map Prod.fst).Nodup)
    (hbij₁ : ∀ e ∈ st.revMap, alistGet st.idMap e.2 = some e.1)
    (hbij₂ : ∀ e ∈ st.idMap, alistGet st.revMap e.2 = some e.1) :
    (st.removeVectorsByPrefix pre).2
      = (st.revMap.filter (fun e => idMatches e.1 pre)).length ∧
    (st.removeVectorsByPrefix pre).1.revMap
      = st.revMap.filter (fun e => !idMatches e.1 pre) ∧
    (st.removeVectorsByPrefix pre).1.idMap
      = st.idMap.filter (fun e => !idMatches e.2 pre) ∧
    (st.removeVectorsByPrefix pre).1.pending
      = st.pending.filter (fun e =>
          match alistGet st.idMap e.1 with
          | some id => !idMatches id pre
          | none => true) := by
  have hlive : ∀ k ∈ st.revMap.map Prod.fst, alistGet st.revMap k ≠ none := by
    intro k hkm
    obtain ⟨e, he, hek⟩ := List.mem_map.mp hkm
    have hg := alistGet_of_mem_nodupKeys hrev he
    rw [hek] at hg
    rw [hg]
    simp
  obtain ⟨ihc, ihr, ihi, ihp⟩ := removeLoop_spec pre (st.revMap.map Prod.fst) st 0
    hrev hlive hrev hidm hbij₁ hbij₂
  have hun : st.removeVectorsByPrefix pre = removeLoop pre (st, 0) (st.revMap.map Prod.fst) := by
    unfold VectorStore.removeVectorsByPrefix
    rw [if_neg hpre]
  refine ⟨?_, ?_, ?_, ?_⟩
  · rw [hun, ihc, Nat.zero_add, List.filter_map, List.length_map]
    congr 1
  · rw [hun, ihr]
    apply List.filter_congr
    intro e he
    have hmm : e.1 ∈ st.revMap.map Prod.fst := List.mem_map_of_mem Prod.fst he
    simp [hmm]
  · rw [hun, ihi]
    apply List.filter_congr
    intro e he
    have h2 := hbij₂ e he
    have hmm : e.2 ∈ st.revMap.map Prod.fst :=
      List.mem_map_of_mem Prod.fst (alistGet_mem h2)
    simp [hmm]
  · rw [hun, ihp]
    apply List.filter_congr
    intro e _
    cases hg : alistGet st.idMap e.1 with
    | none => simp [hg]
    | some id =>
      have h2 := hbij₂ (e.1, id) (alistGet_mem hg)
      have hmm : id ∈ st.revMap.map Prod.fst :=
        List.mem_map_of_mem Prod.fst (alistGet_mem h2)
      simp [hg, hmm]

/-- Concrete flat store with three chunk records `K1#0`, `K1#1`, `K2#0`. -/
def vsC7 : VectorStore :=
  ⟨2, .flat, 0,
   [(0, [1, 0]), (1, [0, 1]), (2, [1, 1])],
   [],
   [(0, ['K', '1', '#', '0']), (1, ['K', '1', '#', '1']), (2, ['K', '2', '#', '0'])],
   [(['K', '1', '#', '0'], 0), (['K', '1', '#', '1'], 1), (['K', '2', '#', '0'], 2)],
   3, true, [], none⟩

theorem removeVectorsByPrefix_spec_witness :
    ((['K', '1', '#'] : Str) ≠ [] ∧
      (vsC7.revMap.map Prod.fst).Nodup ∧ (vsC7.idMap.map Prod.fst).Nodup ∧
      (∀ e ∈ vsC7.revMap, alistGet vsC7.idMap e.2 = some e.1) ∧
      (∀ e ∈ vsC7.idMap, alistGet vsC7.revMap e.2 = some e.1)) ∧
    (vsC7.removeVectorsByPrefix ['K', '1', '#']).2
      = (vsC7.revMap.filter (fun e => idMatches e.1 ['K', '1', '#'])).length ∧
    (vsC7.removeVectorsByPrefix ['K', '1', '#']).1.revMap
      = vsC7.revMap.filter (fun e => !idMatches e.1 ['K', '1', '#']) ∧
    (vsC7.removeVectorsByPrefix ['K', '1', '#']).1.idMap
      = vsC7.idMap.filter (fun e => !idMatches e.2 ['K', '1', '#']) ∧
    (vsC7.removeVectorsByPrefix ['K', '1', '#']).1.pending
      = vsC7.pending.filter (fun e =>
          match alistGet vsC7.idMap e.1 with
          | some id => !idMatches id ['K', '1', '#']
          | none => true) :=
  ⟨⟨by decide, by decide, by decide, by decide, by decide⟩,
   removeVectorsByPrefix_spec vsC7 ['K', '1', '#']
     (by decide) (by decide) (by decide) (by decide) (by decide)⟩

/-! ## Inverted index — `_build_inverted_index` / `_update_inverted_index`
(shared_data.py:445-513) and the tokenizer `_extract_tokens`
(shared_data.py:689-717) -/

/-- `[a-z0-9]` (the tokenizer scans the lower-cased text). -/
def isLowerAlnum (c : Char) : Bool :=
  ('a' ≤ c && c ≤ 'z') || ('0' ≤ c && c ≤ '9')

/-- CJK unified ideographs `[一-鿿]`. -/
def isCJK (c : Char) : Bool :=
  0x4e00 ≤ c.toNat && c.toNat ≤ 0x9fff

/-- Up to 12 sliding bigrams of a CJK segment. -/
def bigrams12 (seg : Str) : List Str :=
  ((List.range (seg.length - 1)).take 12).map fun i => (seg.drop i).take 2

/-- The tokenizer's final pass: drop empties and duplicates, stop as soon
as 40 tokens are collected. -/
def dedupCapAux : List Str → List Str → List Str
  | acc, [] => acc
  | acc, t :: ts =>
    let acc' := if t ≠ [] ∧ t ∉ acc then acc ++ [t] else acc
    if 40 ≤ acc'.length then acc' else dedupCapAux acc' ts

/-- `KnowledgeStore._extract_tokens`: lowercase alphanumeric runs of
length ≥ 2, plus whole CJK segments of length ≥ 2 with up to 12 bigrams
each, deduplicated in order and capped at 40. -/
def extractTokens (text : Str) : List Str :=
  let s := strip text
  if s = [] then []
  else
    let sLower := s.map Char.toLower
    let alnum := (runs isLowerAlnum sLower).filter (fun r => 2 ≤ r.length)
    let cjkSegs := (runs isCJK s).filter (fun r => 2 ≤ r.length)
    let tokens := alnum ++ (cjkSegs.map fun seg => seg :: bigrams12 seg).flatten
    dedupCapAux [] tokens

/-- The inverted index: token → posting list of item IDs
(a Python dict of lists, modelled as an insertion-ordered alist). -/
abbrev InvIdx := List (Str × List Str)

def lookupIds (idx : InvIdx) (t : Str) : List Str :=
  (alistGet idx t).getD []

/-- `if term not in idx: idx[term] = []` followed by
`if id not in idx[term]: idx[term].append(id)`. -/
def addPosting : InvIdx → Str → Str → InvIdx
  | [], t, i => [(t, [i])]
  | e :: rest, t, i =>
    if e.1 = t then (e.1, if i ∈ e.2 then e.2 else e.2 ++ [i]) :: rest
    else e :: addPosting rest t i

/-- `if term in idx and id in idx[term]: idx[term].remove(id);
if not idx[term]: del idx[term]`. -/
def removePosting : InvIdx → Str → Str → InvIdx
  | [], _, _ => []
  | e :: rest, t, i =>
    if e.1 = t then
      if i ∈ e.2 then
        let ids := e.2.erase i
        if ids = [] then rest else (e.1, ids) :: rest
      else e :: rest
    else e :: removePosting rest t i

/-- An item's keyword terms: `(keyword or "").strip().lower()`, empties
dropped. -/
def cleanKeywords (kws : List Str) : List Str :=
  (kws.map fun k => (strip k).map Char.toLower).filter (fun k => k ≠ [])

/-- An item's category term (if non-empty after strip/lower). -/
def categoryTerm (item : KnowledgeItem) : List Str :=
  let c := (strip item.category).map Char.toLower
  if c = [] then [] else [c]

/-- Up to 10 question tokens, lower-cased. -/
def tokenTerms (item : KnowledgeItem) : List Str :=
  ((extractTokens item.question).take 10).map fun t => t.map Char.toLower

/-- All index terms one item contributes, in the order the code visits
them (duplicates possible; both build and update guard against them). -/
def rawTerms (item : KnowledgeItem) : List Str :=
  cleanKeywords item.keywords ++ categoryTerm item ++ tokenTerms item

/-- Order-preserving deduplication — the model of the Python `set` the
incremental update collects its terms into (set iteration order is
unspecified; only the token → ID-set map is claimed, which is
insensitive to it). -/
def dedupAux : List Str → List Str → List Str
  | acc, [] => acc
  | acc, t :: ts => dedupAux (if t ∈ acc then acc else acc ++ [t]) ts

def dedupFirst (l : List Str) : List Str := dedupAux [] l

/-- `KnowledgeStore._build_inverted_index`, one item. -/
def buildStep (idx : InvIdx) (item : KnowledgeItem) : InvIdx :=
  (rawTerms item).foldl (fun a t => addPosting a t item.id) idx

/-- `KnowledgeStore._build_inverted_index`: clear, then index every item. -/
def buildInvertedIndex (items : List KnowledgeItem) : InvIdx :=
  items.foldl buildStep []

/-- `KnowledgeStore._update_inverted_index` (the index is already built):
collect the item's term set, then add or remove its ID for each term. -/
def updateInvertedIndex (idx : InvIdx) (item : KnowledgeItem) (remove : Bool) : InvIdx :=
  (dedupFirst (rawTerms item)).foldl
    (fun a t => if remove then removePosting a t item.id else addPosting a t item.id) idx

theorem lookupIds_cons_self (e : Str × List Str) (rest : InvIdx) (t : Str) (h : e.1 = t) :
    lookupIds (e :: rest) t = e.2 := by
  unfold lookupIds alistGet
  rw [List.find?_cons_of_pos _ (by simp [h])]
  rfl

theorem lookupIds_cons_ne (e : Str × List Str) (rest : InvIdx) (t : Str) (h : e.1 ≠ t) :
    lookupIds (e :: rest) t = lookupIds rest t := by
  unfold lookupIds alistGet
  rw [List.find?_cons_of_neg _ (by simp [h])]

theorem lookupIds_nil (t : Str) : lookupIds [] t = [] := rfl

theorem lookupIds_addPosting_self (idx : InvIdx) (t i : Str) :
    lookupIds (addPosting idx t i) t
      = if i ∈ lookupIds idx t then lookupIds idx t else lookupIds idx t ++ [i] := by
  induction idx with
  | nil =>
    rw [show addPosting [] t i = [(t, [i])] from rfl,
        lookupIds_cons_self _ _ _ rfl, lookupIds_nil]
    simp
  | cons e rest ih =>
    by_cases het : e.1 = t
    · rw [show addPosting (e :: rest) t i
            = (e.1, if i ∈ e.2 then e.2 else e.2 ++ [i]) :: rest from by
          simp [addPosting, het]]
      rw [lookupIds_cons_self (e.1, if i ∈ e.2 then e.2 else e.2 ++ [i]) rest t het,
          lookupIds_cons_self e rest t het]
    · rw [show addPosting (e :: rest) t i = e :: addPosting rest t i from by
          simp [addPosting, het]]
      rw [lookupIds_cons_ne e (addPosting rest t i) t het,
          lookupIds_cons_ne e rest t het, ih]

theorem lookupIds_addPosting_ne (idx : InvIdx) (t t' i : Str) (h : t' ≠ t) :
    lookupIds (addPosting idx t i) t' = lookupIds idx t' := by
  induction idx with
  | nil =>
    rw [show addPosting [] t i = [(t, [i])] from rfl,
        lookupIds_cons_ne _ _ _ (by simpa using Ne.symm h)]
  | cons e rest ih =>
    by_cases het : e.1 = t
    · rw [show addPosting (e :: rest) t i
            = (e.1, if i ∈ e.2 then e.2 else e.2 ++ [i]) :: rest from by
          simp [addPosting, het]]
      have hne : e.1 ≠ t' := fun hc => h (hc ▸ het ▸ rfl)
      rw [lookupIds_cons_ne (e.1, if i ∈ e.2 then e.2 else e.2 ++ [i]) rest t' hne,
          lookupIds_cons_ne e rest t' hne]
    · rw [show addPosting (e :: rest) t i = e :: addPosting rest t i from by
          simp [addPosting, het]]
      by_cases het' : e.1 = t'
      · rw [lookupIds_cons_self e (addPosting rest t i) t' het',
            lookupIds_cons_self e rest t' het']
      · rw [lookupIds_cons_ne e (addPosting rest t i) t' het',
            lookupIds_cons_ne e rest t' het', ih]

theorem mem_lookupIds_addPosting (idx : InvIdx) (t t' i y : Str) :
    y ∈ lookupIds (addPosting idx t i) t'
      ↔ y ∈ lookupIds idx t' ∨ (y = i ∧ t' = t) := by
  by_cases ht : t' = t
  · subst ht
    rw [lookupIds_addPosting_self]
    by_cases hin : i ∈ lookupIds idx t'
    · rw [if_pos hin]
      constructor
      · exact fun h => Or.inl h
      · rintro (h | ⟨rfl, -⟩)
        · exact h
        · exact hin
    · rw [if_neg hin]
      simp [List.mem_append]
  · rw [lookupIds_addPosting_ne idx t t' i ht]
    simp [ht]

theorem lookupIds_removePosting_ne (idx : InvIdx) (t t' i : Str) (h : t' ≠ t) :
    lookupIds (removePosting idx t i) t' = lookupIds idx t' := by
  induction idx with
  | nil => rfl
  | cons e rest ih =>
    by_cases het : e.1 = t
    · have hne : e.1 ≠ t' := fun hc => h (hc ▸ het ▸ rfl)
      by_cases hin : i ∈ e.2
      · by_cases hnil : e.2.erase i = []
        · rw [show removePosting (e :: rest) t i = rest from by
              simp [removePosting, het, hin, hnil]]
          rw [lookupIds_cons_ne e rest t' hne]
        · rw [show removePosting (e :: rest) t i = (e.1, e.2.erase i) :: rest from by
              simp [removePosting, het, hin, hnil]]
          rw [lookupIds_cons_ne (e.1, e.2.erase i) rest t' hne,
              lookupIds_cons_ne e rest t' hne]
      · rw [show removePosting (e :: rest) t i = e :: rest from by
            simp [removePosting, het, hin]]
    · rw [show removePosting (e :: rest) t i = e :: removePosting rest t i from by
          simp [removePosting, het]]
      by_cases het' : e.1 = t'
      · rw [lookupIds_cons_self e (removePosting rest t i) t' het',
            lookupIds_cons_self e rest t' het']
      · rw [lookupIds_cons_ne e (removePosting rest t i) t' het',
            lookupIds_cons_ne e rest t' het', ih]

theorem lookupIds_not_mem_keys (idx : InvIdx) (t : Str)
    (h : t ∉ idx.map Prod.fst) : lookupIds idx t = [] := by
  induction idx with
  | nil => rfl
  | cons e rest ih =>
    simp only [List.map_cons, List.mem_cons] at h
    push_neg at h
    rw [lookupIds_cons_ne e rest t (fun hc => h.1 hc.symm)]
    exact ih h.2

theorem lookupIds_removePosting_self (idx : InvIdx) (t i : Str)
    (hk : (idx.map Prod.fst).Nodup) :
    lookupIds (removePosting idx t i) t = (lookupIds idx t).erase i := by
  induction idx with
  | nil => rfl
  | cons e rest ih =>
    simp only [List.map_cons, List.nodup_cons] at hk
    by_cases het : e.1 = t
    · by_cases hin : i ∈ e.2
      · by_cases hnil : e.2.erase i = []
        · rw [show removePosting (e :: rest) t i = rest from by
              simp [removePosting, het, hin, hnil]]
          rw [lookupIds_cons_self e rest t het, hnil]
          exact lookupIds_not_mem_keys rest t (het ▸ hk.1)
        · rw [show removePosting (e :: rest) t i = (e.1, e.2.erase i) :: rest from by
              simp [removePosting, het, hin, hnil]]
          rw [lookupIds_cons_self (e.1, e.2.erase i) rest t het,
              lookupIds_cons_self e rest t het]
      · rw [show removePosting (e :: rest) t i = e :: rest from by
            simp [removePosting, het, hin]]
        rw [lookupIds_cons_self e rest t het]
        exact (List.erase_of_not_mem hin).symm
    · rw [show removePosting (e :: rest) t i = e :: removePosting rest t i from by
          simp [removePosting, het]]
      rw [lookupIds_cons_ne e (removePosting rest t i) t het,
          lookupIds_cons_ne e rest t het]
      exact ih hk.2

theorem updateInvertedIndex_true (idx : InvIdx) (item : KnowledgeItem) :
    updateInvertedIndex idx item true
      = (dedupFirst (rawTerms item)).foldl (fun a t => removePosting a t item.id) idx := by
  unfold updateInvertedIndex
  simp

theorem updateInvertedIndex_false (idx : InvIdx) (item : KnowledgeItem) :
    updateInvertedIndex idx item false
      = (dedupFirst (rawTerms item)).foldl (fun a t => addPosting a t item.id) idx := by
  unfold updateInvertedIndex
  simp

theorem mem_keys_addPosting (idx : InvIdx) (t i x : Str) :
    x ∈ (addPosting idx t i).map Prod.fst ↔ x ∈ idx.map Prod.fst ∨ x = t := by
  induction idx with
  | nil => simp [addPosting]
  | cons e rest ih =>
    by_cases het : e.1 = t
    · rw [show addPosting (e :: rest) t i
            = (e.1, if i ∈ e.2 then e.2 else e.2 ++ [i]) :: rest from by
          simp [addPosting, het]]
      simp only [List.map_cons, List.mem_cons]
      rw [het]
      tauto
    · rw [show addPosting (e :: rest) t i = e :: addPosting rest t i from by
          simp [addPosting, het]]
      simp only [List.map_cons, List.mem_cons, ih]
      tauto

theorem keysNodup_addPosting (idx : InvIdx) (t i : Str)
    (h : (idx.map Prod.fst).Nodup) : ((addPosting idx t i).map Prod.fst).Nodup := by
  induction idx with
  | nil => simp [addPosting]
  | cons e rest ih =>
    simp only [List.map_cons, List.nodup_cons] at h
    by_cases het : e.1 = t
    · rw [show addPosting (e :: rest) t i
            = (e.1, if i ∈ e.2 then e.2 else e.2 ++ [i]) :: rest from by
          simp [addPosting, het]]
      simp only [List.map_cons, List.nodup_cons]
      exact ⟨h.1, h.2⟩
    · rw [show addPosting (e :: rest) t i = e :: addPosting rest t i from by
          simp [addPosting, het]]
      simp only [List.map_cons, List.nodup_cons]
      refine ⟨?_, ih h.2⟩
      intro hc
      rcases (mem_keys_addPosting rest t i e.1).mp hc with hmem | heq
      · exact h.1 hmem
      · exact het heq

theorem keys_removePosting_sublist (idx : InvIdx) (t i : Str) :
    ((removePosting idx t i).map Prod.fst).Sublist (idx.map Prod.fst) := by
  induction idx with
  | nil => simp [removePosting]
  | cons e rest ih =>
    by_cases het : e.1 = t
    · by_cases hin : i ∈ e.2
      · by_cases hnil : e.2.erase i = []
        · rw [show removePosting (e :: rest) t i = rest from by
              simp [removePosting, het, hin, hnil]]
          simp only [List.map_cons]
          exact (List.Sublist.refl _).cons _
        · rw [show removePosting (e :: rest) t i = (e.1, e.2.erase i) :: rest from by
              simp [removePosting, het, hin, hnil]]
          simp only [List.map_cons]
          exact (List.Sublist.refl _).cons₂ _
      · rw [show removePosting (e :: rest) t i = e :: rest from by
            simp [removePosting, het, hin]]
    · rw [show removePosting (e :: rest) t i = e :: removePosting rest t i from by
          simp [removePosting, het]]
      simp only [List.map_cons]
      exact ih.cons₂ _

theorem keysNodup_removePosting (idx : InvIdx) (t i : Str)
    (h : (idx.map Prod.fst).Nodup) : ((removePosting idx t i).map Prod.fst).Nodup :=
  (keys_removePosting_sublist idx t i).nodup h

theorem valsNodup_addPosting (idx : InvIdx) (t i : Str)
    (h : ∀ e ∈ idx, e.2.Nodup) : ∀ e ∈ addPosting idx t i, e.2.Nodup := by
  induction idx with
  | nil =>
    intro e he
    rw [show addPosting [] t i = [(t, [i])] from rfl] at he
    simp only [List.mem_singleton] at he
    subst he
    simp
  | cons e0 rest ih =>
    intro e he
    by_cases het : e0.1 = t
    · rw [show addPosting (e0 :: rest) t i
            = (e0.1, if i ∈ e0.2 then e0.2 else e0.2 ++ [i]) :: rest from by
          simp [addPosting, het]] at he
      rcases List.mem_cons.mp he with heq | hmem
      · subst heq
        by_cases hin : i ∈ e0.2
        · simpa [hin] using h e0 (by simp)
        · have h0 := h e0 (by simp)
          simp [hin, List.nodup_append, h0]
      · exact h e (by simp [hmem])
    · rw [show addPosting (e0 :: rest) t i = e0 :: addPosting rest t i from by
          simp [addPosting, het]] at he
      rcases List.mem_cons.mp he with heq | hmem
      · subst heq
        exact h _ (by simp)
      · exact ih (fun e' he' => h e' (by simp [he'])) e hmem

theorem valsNodup_removePosting (idx : InvIdx) (t i : Str)
    (h : ∀ e ∈ idx, e.2.Nodup) : ∀ e ∈ removePosting idx t i, e.2.Nodup := by
  induction idx with
  | nil => intro e he; cases he
  | cons e0 rest ih =>
    intro e he
    by_cases het : e0.1 = t
    · by_cases hin : i ∈ e0.2
      · by_cases hnil : e0.2.erase i = []
        · rw [show removePosting (e0 :: rest) t i = rest from by
              simp [removePosting, het, hin, hnil]] at he
          exact h e (by simp [he])
        · rw [show removePosting (e0 :: rest) t i = (e0.1, e0.2.erase i) :: rest from by
              simp [removePosting, het, hin, hnil]] at he
          rcases List.mem_cons.mp he with heq | hmem
          · subst heq
            exact (h e0 (by simp)).erase i
          · exact h e (by simp [hmem])
      · rw [show removePosting (e0 :: rest) t i = e0 :: rest from by
            simp [removePosting, het, hin]] at he
        exact h e he
    · rw [show removePosting (e0 :: rest) t i = e0 :: removePosting rest t i from by
          simp [removePosting, het]] at he
      rcases List.mem_cons.mp he with heq | hmem
      · subst heq
        exact h _ (by simp)
      · exact ih (fun e' he' => h e' (by simp [he'])) e hmem

theorem lookupIds_foldl_add_not_mem (idv t : Str) :
    ∀ (ts : List Str), t ∉ ts → ∀ idx : InvIdx,
      lookupIds (ts.foldl (fun a t' => addPosting a t' idv) idx) t = lookupIds idx t := by
  intro ts
  induction ts with
  | nil => intro _ idx; rfl
  | cons t0 ts ih =>
    intro h idx
    simp only [List.mem_cons, not_or] at h
    rw [List.foldl_cons, ih h.2, lookupIds_addPosting_ne idx t0 t idv h.1]

theorem lookupIds_foldl_add_mem (idv t : Str) :
    ∀ (ts : List Str), ts.Nodup → t ∈ ts → ∀ idx : InvIdx,
      lookupIds (ts.foldl (fun a t' => addPosting a t' idv) idx) t
        = if idv ∈ lookupIds idx t then lookupIds idx t
          else lookupIds idx t ++ [idv] := by
  intro ts
  induction ts with
  | nil => intro _ h; exact absurd h (List.not_mem_nil t)
  | cons t0 ts ih =>
    intro hnod h idx
    simp only [List.nodup_cons] at hnod
    rw [List.foldl_cons]
    by_cases ht0 : t = t0
    · subst ht0
      rw [lookupIds_foldl_add_not_mem idv t ts hnod.1, lookupIds_addPosting_self]
    · have hts : t ∈ ts := by
        rcases List.mem_cons.mp h with h' | h'
        · exact absurd h' ht0
        · exact h'
      rw [ih hnod.2 hts, lookupIds_addPosting_ne idx t0 t idv ht0]

theorem lookupIds_foldl_remove_not_mem (idv t : Str) :
    ∀ (ts : List Str), t ∉ ts → ∀ idx : InvIdx,
      lookupIds (ts.foldl (fun a t' => removePosting a t' idv) idx) t = lookupIds idx t := by
  intro ts
  induction ts with
  | nil => intro _ idx; rfl
  | cons t0 ts ih =>
    intro h idx
    simp only [List.mem_cons, not_or] at h
    rw [List.foldl_cons, ih h.2, lookupIds_removePosting_ne idx t0 t idv h.1]

theorem lookupIds_foldl_remove_mem (idv t : Str) :
    ∀ (ts : List Str), ts.Nodup → t ∈ ts → ∀ idx : InvIdx, (idx.map Prod.fst).Nodup →
      lookupIds (ts.foldl (fun a t' => removePosting a t' idv) idx) t
        = (lookupIds idx t).erase idv := by
  intro ts
  induction ts with
  | nil => intro _ h; exact absurd h (List.not_mem_nil t)
  | cons t0 ts ih =>
    intro hnod h idx hk
    simp only [List.nodup_cons] at hnod
    rw [List.foldl_cons]
    by_cases ht0 : t = t0
    · subst ht0
      rw [lookupIds_foldl_remove_not_mem idv t ts hnod.1,
          lookupIds_removePosting_self idx t idv hk]
    · have hts : t ∈ ts := by
        rcases List.mem_cons.mp h with h' | h'
        · exact absurd h' ht0
        · exact h'
      rw [ih hnod.2 hts _ (keysNodup_removePosting idx t0 idv hk),
          lookupIds_removePosting_ne idx t0 t idv ht0]

theorem mem_lookupIds_foldl_add (idv t y : Str) :
    ∀ (ts : List Str) (idx : InvIdx),
      y ∈ lookupIds (ts.foldl (fun a t' => addPosting a t' idv) idx) t
        ↔ y ∈ lookupIds idx t ∨ (y = idv ∧ t ∈ ts) := by
  intro ts
  induction ts with
  | nil => intro idx; simp
  | cons t0 ts ih =>
    intro idx
    rw [List.foldl_cons, ih, mem_lookupIds_addPosting]
    simp only [List.mem_cons]
    tauto

theorem mem_lookupIds_buildFold (t y : Str) :
    ∀ (items : List KnowledgeItem) (idx : InvIdx),
      y ∈ lookupIds (items.foldl buildStep idx) t
        ↔ y ∈ lookupIds idx t ∨ ∃ it ∈ items, it.id = y ∧ t ∈ rawTerms it := by
  intro items
  induction items with
  | nil => intro idx; simp
  | cons it items ih =>
    intro idx
    rw [List.foldl_cons, ih]
    unfold buildStep
    rw [mem_lookupIds_foldl_add]
    simp only [List.mem_cons]
    constructor
    · intro h
      rcases h with h | h
      · rcases h with h | h
        · exact Or.inl h
        · exact Or.inr ⟨it, Or.inl rfl, h.1.symm, h.2⟩
      · obtain ⟨it', hit', hid, ht'⟩ := h
        exact Or.inr ⟨it', Or.inr hit', hid, ht'⟩
    · intro h
      rcases h with h | h
      · exact Or.inl (Or.inl h)
      · obtain ⟨it', hit', hid, ht'⟩ := h
        rcases hit' with rfl | hit'
        · exact Or.inl (Or.inr ⟨hid.symm, ht'⟩)
        · exact Or.inr ⟨it', hit', hid, ht'⟩

theorem mem_lookupIds_build (items : List KnowledgeItem) (t y : Str) :
    y ∈ lookupIds (buildInvertedIndex items) t
      ↔ ∃ it ∈ items, it.id = y ∧ t ∈ rawTerms it := by
  unfold buildInvertedIndex
  rw [mem_lookupIds_buildFold]
  simp [lookupIds_nil]

theorem keysNodup_foldl_add (idv : Str) :
    ∀ (ts : List Str) (idx : InvIdx), (idx.map Prod.fst).Nodup →
      (((ts.foldl (fun a t' => addPosting a t' idv) idx)).map Prod.fst).Nodup := by
  intro ts
  induction ts with
  | nil => intro idx h; exact h
  | cons t0 ts ih =>
    intro idx h
    rw [List.foldl_cons]
    exact ih _ (keysNodup_addPosting idx t0 idv h)

theorem valsNodup_foldl_add (idv : Str) :
    ∀ (ts : List Str) (idx : InvIdx), (∀ e ∈ idx, e.2.Nodup) →
      ∀ e ∈ ts.foldl (fun a t' => addPosting a t' idv) idx, e.2.Nodup := by
  intro ts
  induction ts with
  | nil => intro idx h; exact h
  | cons t0 ts ih =>
    intro idx h
    rw [List.foldl_cons]
    exact ih _ (valsNodup_addPosting idx t0 idv h)

theorem keysNodup_build (items : List KnowledgeItem) :
    ((buildInvertedIndex items).map Prod.fst).Nodup := by
  unfold buildInvertedIndex
  have : ∀ (its : List KnowledgeItem) (idx : InvIdx), (idx.map Prod.fst).Nodup →
      ((its.foldl buildStep idx).map Prod.fst).Nodup := by
    intro its
    induction its with
    | nil => intro idx h; exact h
    | cons it its ih =>
      intro idx h
      rw [List.foldl_cons]
      exact ih _ (keysNodup_foldl_add it.id (rawTerms it) idx h)
  exact this items [] (by simp)

theorem valsNodup_build (items : List KnowledgeItem) :
    ∀ e ∈ buildInvertedIndex items, e.2.Nodup := by
  unfold buildInvertedIndex
  have : ∀ (its : List KnowledgeItem) (idx : InvIdx), (∀ e ∈ idx, e.2.Nodup) →
      ∀ e ∈ its.foldl buildStep idx, e.2.Nodup := by
    intro its
    induction its with
    | nil => intro idx h; exact h
    | cons it its ih =>
      intro idx h
      rw [List.foldl_cons]
      exact ih _ (valsNodup_foldl_add it.id (rawTerms it) idx h)
  exact this items [] (by intro e he; cases he)

theorem nodup_lookupIds (idx : InvIdx) (t : Str)
    (h : ∀ e ∈ idx, e.2.Nodup) : (lookupIds idx t).Nodup := by
  unfold lookupIds
  cases hg : alistGet idx t with
  | none => simp
  | some v =>
    simpa using h (t, v) (alistGet_mem hg)

theorem mem_dedupAux (x : Str) :
    ∀ (l acc : List Str), x ∈ dedupAux acc l ↔ x ∈ acc ∨ x ∈ l := by
  intro l
  induction l with
  | nil => intro acc; simp [dedupAux]
  | cons t ts ih =>
    intro acc
    rw [show dedupAux acc (t :: ts) = dedupAux (if t ∈ acc then acc else acc ++ [t]) ts from rfl,
        ih]
    by_cases htacc : t ∈ acc
    · rw [if_pos htacc]
      simp only [List.mem_cons]
      constructor
      · rintro (h | h)
        · exact Or.inl h
        · exact Or.inr (Or.inr h)
      · rintro (h | rfl | h)
        · exact Or.inl h
        · exact Or.inl htacc
        · exact Or.inr h
    · rw [if_neg htacc]
      simp only [List.mem_append, List.mem_singleton, List.mem_cons]
      tauto

theorem nodup_dedupAux :
    ∀ (l acc : List Str), acc.Nodup → (dedupAux acc l).Nodup := by
  intro l
  induction l with
  | nil => intro acc h; exact h
  | cons t ts ih =>
    intro acc h
    rw [show dedupAux acc (t :: ts) = dedupAux (if t ∈ acc then acc else acc ++ [t]) ts from rfl]
    apply ih
    by_cases htacc : t ∈ acc
    · simpa [htacc]
    · simp [htacc, List.nodup_append, h]

/-- **C6.** On the index built from an item set, incrementally removing
one member item's terms and then re-adding them restores exactly the
token → item-ID-set map of the full build: for every token and every ID,
membership in the posting list agrees with the freshly built index
(missing keys and pruned-empty keys both read as the empty set). -/
theorem inverted_index_remove_add_roundtrip (items : List KnowledgeItem)
    (item : KnowledgeItem) (hmem : item ∈ items) (t y : Str) :
    (y ∈ lookupIds (updateInvertedIndex
        (updateInvertedIndex (buildInvertedIndex items) item true) item false) t
      ↔ y ∈ lookupIds (buildInvertedIndex items) t) := by
  have hkeys := keysNodup_build items
  have hvals := valsNodup_build items
  have htermsnod : (dedupFirst (rawTerms item)).Nodup :=
    nodup_dedupAux (rawTerms item) [] (by simp)
  rw [updateInvertedIndex_true, updateInvertedIndex_false]
  by_cases ht : t ∈ dedupFirst (rawTerms item)
  · rw [lookupIds_foldl_add_mem item.id t _ htermsnod ht,
        lookupIds_foldl_remove_mem item.id t _ htermsnod ht _ hkeys]
    have hBnod : (lookupIds (buildInvertedIndex items) t).Nodup :=
      nodup_lookupIds _ t hvals
    have hnotin : item.id ∉ (lookupIds (buildInvertedIndex items) t).erase item.id :=
      hBnod.not_mem_erase
    rw [if_neg hnotin]
    have hrt : t ∈ rawTerms item := by
      rcases (mem_dedupAux t (rawTerms item) []).mp ht with h | h
      · cases h
      · exact h
    have hidin : item.id ∈ lookupIds (buildInvertedIndex items) t :=
      (mem_lookupIds_build items t item.id).mpr ⟨item, hmem, rfl, hrt⟩
    constructor
    · intro hy
      rcases List.mem_append.mp hy with hy | hy
      · exact (hBnod.mem_erase_iff.mp hy).2
      · rw [List.mem_singleton.mp hy]
        exact hidin
    · intro hy
      by_cases hyid : y = item.id
      · subst hyid
        exact List.mem_append.mpr (Or.inr (by simp))
      · exact List.mem_append.mpr (Or.inl (hBnod.mem_erase_iff.mpr ⟨hyid, hy⟩))
  · rw [lookupIds_foldl_add_not_mem item.id t _ ht,
        lookupIds_foldl_remove_not_mem item.id t _ ht]

theorem inverted_index_remove_add_roundtrip_witness :
    ((⟨['A'], ['h', 'i'], [], [['k', 'w']], ['c'], 1⟩ : KnowledgeItem)
        ∈ [(⟨['A'], ['h', 'i'], [], [['k', 'w']], ['c'], 1⟩ : KnowledgeItem),
           (⟨['B'], ['h', 'i'], [], [['k', 'w']], ['c'], 1⟩ : KnowledgeItem)]) ∧
    ((['B'] : Str) ∈ lookupIds (updateInvertedIndex
        (updateInvertedIndex
          (buildInvertedIndex
            [(⟨['A'], ['h', 'i'], [], [['k', 'w']], ['c'], 1⟩ : KnowledgeItem),
             (⟨['B'], ['h', 'i'], [], [['k', 'w']], ['c'], 1⟩ : KnowledgeItem)])
          ⟨['A'], ['h', 'i'], [], [['k', 'w']], ['c'], 1⟩ true)
        ⟨['A'], ['h', 'i'], [], [['k', 'w']], ['c'], 1⟩ false) ['k', 'w']
      ↔ (['B'] : Str) ∈ lookupIds (buildInvertedIndex
            [(⟨['A'], ['h', 'i'], [], [['k', 'w']], ['c'], 1⟩ : KnowledgeItem),
             (⟨['B'], ['h', 'i'], [], [['k', 'w']], ['c'], 1⟩ : KnowledgeItem)]) ['k', 'w']) :=
  ⟨by decide,
   inverted_index_remove_add_roundtrip _ _ (by decide) ['k', 'w'] ['B']⟩

/-! ## Query Rewriter — `KnowledgeStore._rewrite_query` (shared_data.py:533-609) -/

/-- The configured filler phrases, in the exact order of the source list
(the code comment claims longest-first order). -/
def stopPhrases : List Str :=
  ["请问一下", "想问一下", "问一下", "想知道", "我想问", "我想知道",
   "可不可以", "能不能", "怎么样", "好不好",
   "帮我看看", "帮我查查", "帮我问问",
   "麻烦问一下", "麻烦帮我",
   "你好", "您好", "请问", "我想", "帮我", "麻烦",
   "谢谢", "感谢", "好的", "可以吗", "行吗", "好吗"].map String.data

/-- The domain synonym map, in the exact order of the source dict. -/
def synonymMap : List (Str × Str) :=
  ([("促销活动", "优惠活动"), ("促销", "优惠活动"), ("活动", "优惠活动"),
    ("有什么活动", "优惠活动"), ("什么活动", "优惠活动"),
    ("参加活动", "优惠活动"), ("参加", "参与"),
    ("多少钱", "价格"), ("什么价", "价格"), ("价位", "价格"),
    ("贵不贵", "价格"), ("便宜", "优惠"), ("打折", "折扣优惠"),
    ("优惠券", "优惠券"), ("满减", "满减活动"), ("红包", "优惠红包"),
    ("发货", "物流配送"), ("快递", "物流"), ("送货", "配送"),
    ("到货", "送达"), ("几天到", "配送时间"), ("多久到", "配送时间"),
    ("包邮", "免运费"), ("邮费", "运费"), ("运费多少", "运费"),
    ("退货", "退换货"), ("换货", "退换货"), ("退款", "退款"),
    ("保修", "质保"), ("售后", "售后服务"), ("维修", "维修"),
    ("坏了", "故障"), ("不能用", "故障"), ("质量问题", "质量"),
    ("有货吗", "库存"), ("有没有货", "库存"), ("缺货", "库存"),
    ("尺码", "尺寸"), ("大小", "尺寸"), ("颜色", "颜色"),
    ("款式", "款式"), ("型号", "型号"), ("规格", "规格"),
    ("付款", "支付"), ("怎么付", "支付方式"),
    ("分期", "分期付款"), ("花呗", "支付"), ("信用卡", "支付"),
    ("订单", "订单"), ("查单", "订单查询"), ("取消订单", "取消订单"),
    ("修改订单", "修改订单"), ("订单状态", "订单查询"),
    ("密码", "密码"), ("登录", "登录"), ("注册", "注册"), ("账号", "账户")]
    : List (String × String)).map fun p => (p.1.data, p.2.data)

/-- `KnowledgeStore._rewrite_query`: strip the filler phrases in list
order (each by a whole-string replace with `" "`), collapse whitespace,
fall back to the original query if fewer than 2 characters remain; then
scan the *original* query for synonym triggers and append the
deduplicated canonical terms. -/
def rewriteQuery (query : Str) : Str :=
  let cleaned0 := stopPhrases.foldl (fun acc p => replaceAll acc p [' ']) query
  let cleaned1 := strip (joinSpace (splitWs cleaned0))
  let cleaned := if cleaned1.length < 2 then query else cleaned1
  let expanded := synonymMap.foldl
    (fun acc uv =>
      if strContains query uv.1 ∧ ¬ strContains cleaned uv.2 ∧ uv.2 ∉ acc
      then acc ++ [uv.2] else acc) []
  if expanded ≠ [] then cleaned ++ [' '] ++ joinSpace expanded else cleaned

/-- **C5 (code bug).** The filler-phrase list is *not* in
longest-match-first order, although the code's own comment
(`按长度从长到短排序，避免短词误删长词的一部分`) and the spec say it is:
`"想知道"` sits at index 3 while its proper superstring `"我想知道"`
sits at index 5 (likewise `"问一下"` at 2 before `"麻烦问一下"` at 13).
Consequently on the query `"我想知道退货政策"` the shorter phrase is
stripped first and partially clobbers the longer one, leaving the
residual fragment `"我"`: the rewriter returns `"我 退货政策 退换货"`,
whereas stripping the whole phrase `"我想知道"` first would leave
exactly `"退货政策"` (final conjunct). -/
theorem rewrite_stop_phrases_order_bug :
    stopPhrases.getD 3 [] = "想知道".data ∧
    stopPhrases.getD 5 [] = "我想知道".data ∧
    strContains "我想知道".data "想知道".data = true ∧
    ("想知道".data : Str).length < ("我想知道".data : Str).length ∧
    rewriteQuery "我想知道退货政策".data = "我 退货政策 退换货".data ∧
    strip (joinSpace (splitWs (replaceAll "我想知道退货政策".data "我想知道".data [' '])))
      = "退货政策".data := by
  decide

/-! ## Knowledge Repository — `KnowledgeStore` (shared_data.py)

The store owns the canonical item list, its JSON persistence (modelled by
the `persisted` field, which `_save_to_file` copies the items into), the
inverted index with its built flag, the `_last_vector_index_error`
field, the embedding collaborator (availability flag plus the
`embed_texts` call) and the vector store. Trace-formatting fields of the
search result (`context_text`, `final_prompt`) and the performance
monitor are presentation-only and not modelled; no claim mentions them. -/

/-- The configuration keys the modelled operations read, at the defaults
of `config.py` / the call sites. -/
structure Config where
  chunkSize : ℕ := 500
  chunkOverlap : ℕ := 50
  retrievalTopK : ℕ := 5
  similarityThreshold : ℚ := 4/10
  chunkMaxPerItem : ℕ := 6

/-- The embedding collaborator: `is_available()` plus `embed_texts`
(returning `[]` on failure). -/
structure EmbeddingClient where
  available : Bool
  embedTexts : List Str → List Vec

structure KnowledgeStore where
  items : List KnowledgeItem
  persisted : List KnowledgeItem
  inverted : InvIdx
  indexBuilt : Bool
  lastVectorIndexError : Option DimErr
  embedding : EmbeddingClient
  vs : VectorStore
  cfg : Config

/-- `KnowledgeStore._item_base_text`: `f"{q} {a}".strip()`. -/
def itemBaseText (item : KnowledgeItem) : Str :=
  strip (item.question ++ [' '] ++ item.answer)

/-- `KnowledgeStore._make_chunk_id`: `f"{item_id}#chunk_{i}"`. -/
def makeChunkId (itemId : Str) (i : ℕ) : Str :=
  itemId ++ "#chunk_".data ++ Nat.toDigits 10 i

/-- `f"K{n:03d}"`'s zero padding. -/
def pad3 (n : ℕ) : Str :=
  let d := Nat.toDigits 10 n
  List.replicate (3 - d.length) '0' ++ d

/-- `int(s)` for the digit strings that item IDs carry (`None` when the
text is not a plain digit run, matching the `except: pass`). -/
def parseNat (s : Str) : Option ℕ :=
  if s ≠ [] ∧ s.all (·.isDigit) then
    some (s.foldl (fun acc c => acc * 10 + (c.toNat - '0'.toNat)) 0)
  else none

/-- The `max_id` scan of `add_item`. -/
def maxItemId (items : List KnowledgeItem) : ℕ :=
  items.foldl (fun m it =>
    match parseNat (it.id.drop 1) with
    | some n => max m n
    | none => m) 0

/-- `_update_inverted_index` as the store calls it: builds from scratch
(from the current items) when the index is not yet built, else patches
incrementally. -/
def storeUpdateInverted (st : KnowledgeStore) (item : KnowledgeItem) (remove : Bool) :
    KnowledgeStore :=
  if st.indexBuilt = false then
    { st with inverted := buildInvertedIndex st.items, indexBuilt := true }
  else
    { st with inverted := updateInvertedIndex st.inverted item remove }

/-- The chunk list `_add_to_vector_index` embeds:
`[c for c in (chunks[:max(1, max_chunks)] if chunks else [text]) if c]`. -/
def itemChunks (cfg : Config) (item : KnowledgeItem) : List Str :=
  let text := itemBaseText item
  let chunks := chunkText cfg.chunkSize cfg.chunkOverlap text
  (if chunks = [] then [text] else chunks.take (max 1 cfg.chunkMaxPerItem)).filter
    (fun c => c ≠ [])

/-- The add loop of `_add_to_vector_index`: skip empty vectors, stop and
record the store's `last_error` on the first failed `add_vector`. -/
def addChunksLoop (item : KnowledgeItem) :
    KnowledgeStore → List Vec → ℕ → KnowledgeStore
  | st, [], _ => st
  | st, v :: rest, i =>
    if v = [] then addChunksLoop item st rest (i + 1)
    else
      let r := st.vs.addVector (makeChunkId item.id i) v
      if r.2 then addChunksLoop item { st with vs := r.1 } rest (i + 1)
      else
        { st with
            vs := r.1
            lastVectorIndexError :=
              match r.1.lastError with
              | some e => some e
              | none => st.lastVectorIndexError }

/-- `KnowledgeStore._add_to_vector_index` (shared_data.py:1194-1236).
Resets `_last_vector_index_error` to `None`, silently returns when the
embedding collaborator is unavailable, otherwise drops any previous
vectors for the item, chunks, embeds and adds chunk vectors until the
first failure (recording that failure). `vector_store.save()` is
persistence of the index artifact and has no modelled effect. -/
def addToVectorIndex (st : KnowledgeStore) (item : KnowledgeItem) : KnowledgeStore :=
  let st := { st with lastVectorIndexError := none }
  if st.embedding.available = false then st
  else
    let vs := (st.vs.removeVector item.id).1
    let vs := (VectorStore.removeVectorsByPrefix vs (item.id ++ "#".data)).1
    let st := { st with vs := vs }
    let chunks := itemChunks st.cfg item
    if chunks = [] then st
    else
      let vecs := st.embedding.embedTexts chunks
      if vecs = [] ∨ vecs.length ≠ chunks.length then st
      else addChunksLoop item st vecs 0

/-- `KnowledgeStore.add_item` (shared_data.py:1159-1192): allocate the
next `K<seq>` ID, append to the canonical list, persist, patch the
inverted index, then synchronise the vector index. -/
def addItem (st : KnowledgeStore) (question answer : Str) (keywords : List Str)
    (category : Str) : KnowledgeStore × KnowledgeItem :=
  let itemId := 'K' :: pad3 (maxItemId st.items + 1)
  let item : KnowledgeItem := ⟨itemId, question, answer, keywords, category, 1⟩
  let st := { st with items := st.items ++ [item] }
  let st := { st with persisted := st.items }
  let st := storeUpdateInverted st item false
  let st := addToVectorIndex st item
  (st, item)

/-- The keyword-argument record of `update_item(item_id, **kwargs)`. -/
structure ItemUpdate where
  question : Option Str := none
  answer : Option Str := none
  keywords : Option (List Str) := none
  category : Option Str := none

def applyUpdate (item : KnowledgeItem) (u : ItemUpdate) : KnowledgeItem :=
  { item with
      question := u.question.getD item.question
      answer := u.answer.getD item.answer
      keywords := u.keywords.getD item.keywords
      category := u.category.getD item.category }

def replaceFirst : List KnowledgeItem → Str → KnowledgeItem → List KnowledgeItem
  | [], _, _ => []
  | it :: rest, itemId, newItem =>
    if it.id = itemId then newItem :: rest else it :: replaceFirst rest itemId newItem

/-- `KnowledgeStore.update_item` (shared_data.py:1258-1277): on the first
item with the given ID — remove its old terms from the inverted index,
apply the field updates in place, persist, add the new terms, then
re-synchronise the vector index. -/
def updateItem (st : KnowledgeStore) (itemId : Str) (u : ItemUpdate) :
    KnowledgeStore × Bool :=
  match st.items.find? (fun it => it.id = itemId) with
  | none => (st, false)
  | some old =>
    let st := storeUpdateInverted st old true
    let newItem := applyUpdate old u
    let st := { st with items := replaceFirst st.items itemId newItem }
    let st := { st with persisted := st.items }
    let st := storeUpdateInverted st newItem false
    let st := addToVectorIndex st newItem
    (st, true)

/-! ## Hybrid retrieval — `search` / `_keyword_search` / `_merge_results`
(shared_data.py:611-621, 784-877, 1011-1076) -/

/-- `KnowledgeStore._keyword_search`: inverted-index candidate set (with
full-scan fallback when no token hits), then the weighted blend of
keyword hits, question/answer token-overlap ratios and substring
containment bonuses, thresholded, clamped at 1, sorted descending,
truncated to `top_k`. -/
def keywordSearch (st : KnowledgeStore) (query : Str) (threshold : ℚ) :
    List (KnowledgeItem × ℚ) :=
  let q := strip query
  if q = [] then []
  else
    let qLower := q.map Char.toLower
    let tokens0 := extractTokens q
    let tokens := if tokens0 = [] then [q] else tokens0
    let topK := st.cfg.retrievalTopK
    let candidateIds : List Str :=
      if st.indexBuilt ∧ st.inverted ≠ [] then
        let hits := tokens.foldl (fun acc tok =>
          match alistGet st.inverted (tok.map Char.toLower) with
          | some ids => acc ++ ids
          | none => acc) []
        if hits = [] then st.items.map (·.id) else hits
      else st.items.map (·.id)
    let scored := st.items.filterMap fun item =>
      if item.id ∈ candidateIds then
        let kwHits := (item.keywords.filter fun kw => kw ≠ [] ∧ strContains q kw).length
        let score : ℚ := if kwHits ≠ 0 then min (7/10) (35/100 * kwHits) else 0
        let qHit := (tokens.filter fun t =>
          t ≠ [] ∧ item.question ≠ [] ∧ strContains item.question t).length
        let aHit := (tokens.filter fun t =>
          t ≠ [] ∧ item.answer ≠ [] ∧ strContains item.answer t).length
        let denom : ℚ := (max 1 tokens.length : ℕ)
        let score := score + 22/100 * (qHit / denom) + 14/100 * (aHit / denom)
        let score := score +
          (if item.question ≠ [] ∧ strContains (item.question.map Char.toLower) qLower
            then 12/100 else 0)
        let score := score +
          (if item.answer ≠ [] ∧ strContains (item.answer.map Char.toLower) qLower
            then 8/100 else 0)
        if threshold ≤ score then some (item, if 1 < score then 1 else score) else none
      else none
    (sortDescBy scored).take topK

/-- `KnowledgeStore._merge_results`: per-item maximum across result sets
(a dict keyed by item ID, first-insertion order), sorted descending,
truncated. -/
def mergeResults (resultSets : List (List (KnowledgeItem × ℚ))) (limit : ℕ) :
    List (KnowledgeItem × ℚ) :=
  let best := resultSets.foldl
    (fun best results =>
      results.foldl
        (fun best ir =>
          match alistGet best ir.1.id with
          | none => alistSet best ir.1.id ir
          | some prev => if prev.2 < ir.2 then alistSet best ir.1.id ir else best)
        best)
    ([] : List (Str × (KnowledgeItem × ℚ)))
  (sortDescBy (best.map (·.2))).take limit

/-- The strip-dedup pass shared by `_keyword_search_multi` and
`_vector_search_multi`. -/
def uniqQueries (queries : List Str) : List Str :=
  queries.foldl
    (fun acc q0 =>
      let q := strip q0
      if q ≠ [] ∧ q ∉ acc then acc ++ [q] else acc) []

/-- `KnowledgeStore._keyword_search_multi`. -/
def keywordSearchMulti (st : KnowledgeStore) (queries : List Str) (threshold : ℚ) :
    List (KnowledgeItem × ℚ) :=
  let uniq := uniqQueries queries
  if uniq = [] then []
  else mergeResults (uniq.map fun q => keywordSearch st q threshold) st.cfg.retrievalTopK

/-- `KnowledgeStore._vector_search_multi` (shared_data.py:743-782). When
the embedding collaborator is unavailable the vector path yields `[]`
(triggering the keyword fallback). The pipeline from `embed_texts`
onwards — floating-point embeddings, the native FAISS search and the
per-chunk fusion of `_vector_search_vec_detailed` — is an oracle
parameter `vecPipeline`; no claim exercises it. -/
def vectorSearchMulti (st : KnowledgeStore)
    (vecPipeline : List Str → ℚ → List (KnowledgeItem × ℚ))
    (queries : List Str) (threshold : ℚ) : List (KnowledgeItem × ℚ) :=
  if st.embedding.available = false then []
  else
    let uniq := uniqQueries queries
    if uniq = [] then [] else vecPipeline uniq threshold

inductive SearchMethod where
  | vector
  | keyword
  deriving Repr, DecidableEq

/-- The trace fields of `RAGSearchResult` the claims mention (the
context/prompt strings are presentation-only and omitted). -/
structure RAGTrace where
  query : Str
  rewrittenQuery : Str
  searchMethod : SearchMethod
  retrievedItems : List (KnowledgeItem × ℚ)
  confidence : ℚ

/-- `KnowledgeStore.search` (shared_data.py:797-877): rewrite, try the
vector path over `[rewritten, raw]`, fall back to keyword search when it
yields nothing, compute confidence (0 when there are no results). -/
def searchStore (st : KnowledgeStore)
    (vecPipeline : List Str → ℚ → List (KnowledgeItem × ℚ))
    (query : Str) (thresholdArg : Option ℚ) :
    List (KnowledgeItem × ℚ) × RAGTrace :=
  let threshold := thresholdArg.getD st.cfg.similarityThreshold
  let rewritten := rewriteQuery query
  let queries := [rewritten, query]
  let vResults := vectorSearchMulti st vecPipeline queries threshold
  let results := if vResults ≠ [] then vResults
    else keywordSearchMulti st queries threshold
  let method := if vResults ≠ [] then SearchMethod.vector else SearchMethod.keyword
  let confidence := if results ≠ [] then computeConfidence query results else 0
  (results, ⟨query, rewritten, method, results, confidence⟩)

/-! ## C2 — mutations survive vector-index synchronisation failures -/

theorem removeLoop_dimension (pre : Str) :
    ∀ (ks : List Str) (acc : VectorStore × ℕ),
      (removeLoop pre acc ks).1.dimension = acc.1.dimension := by
  intro ks
  induction ks with
  | nil => intro acc; rfl
  | cons k ks ih =>
    intro acc
    rw [show removeLoop pre acc (k :: ks)
          = removeLoop pre
              (if idMatches k pre then
                ((acc.1.removeVector k).1, acc.2 + (if (acc.1.removeVector k).2 then 1 else 0))
              else acc) ks from rfl, ih]
    split_ifs <;> simp [removeVector_dimension]

theorem removeVectorsByPrefix_dimension (st : VectorStore) (pre : Str) :
    (st.removeVectorsByPrefix pre).1.dimension = st.dimension := by
  unfold VectorStore.removeVectorsByPrefix
  split_ifs
  · rfl
  · exact removeLoop_dimension pre _ (st, 0)

theorem storeUpdateInverted_frame (st : KnowledgeStore) (item : KnowledgeItem) (rm : Bool) :
    (storeUpdateInverted st item rm).items = st.items ∧
    (storeUpdateInverted st item rm).persisted = st.persisted ∧
    (storeUpdateInverted st item rm).embedding = st.embedding ∧
    (storeUpdateInverted st item rm).vs = st.vs ∧
    (storeUpdateInverted st item rm).cfg = st.cfg ∧
    (storeUpdateInverted st item rm).lastVectorIndexError = st.lastVectorIndexError := by
  unfold storeUpdateInverted
  split_ifs <;> exact ⟨rfl, rfl, rfl, rfl, rfl, rfl⟩

theorem addChunksLoop_frame (item : KnowledgeItem) :
    ∀ (vecs : List Vec) (st : KnowledgeStore) (i : ℕ),
      (addChunksLoop item st vecs i).items = st.items ∧
      (addChunksLoop item st vecs i).persisted = st.persisted ∧
      (addChunksLoop item st vecs i).inverted = st.inverted ∧
      (addChunksLoop item st vecs i).indexBuilt = st.indexBuilt := by
  intro vecs
  induction vecs with
  | nil => intro st i; exact ⟨rfl, rfl, rfl, rfl⟩
  | cons v rest ih =>
    intro st i
    rw [show addChunksLoop item st (v :: rest) i
          = if v = [] then addChunksLoop item st rest (i + 1)
            else
              let r := st.vs.addVector (makeChunkId item.id i) v
              if r.2 then addChunksLoop item { st with vs := r.1 } rest (i + 1)
              else
                { st with
                    vs := r.1
                    lastVectorIndexError :=
                      match r.1.lastError with
                      | some e => some e
                      | none => st.lastVectorIndexError } from rfl]
    dsimp only
    split_ifs with h1 h2
    · exact ih st (i + 1)
    · exact ih _ (i + 1)
    · exact ⟨rfl, rfl, rfl, rfl⟩

theorem addToVectorIndex_frame (st : KnowledgeStore) (item : KnowledgeItem) :
    (addToVectorIndex st item).items = st.items ∧
    (addToVectorIndex st item).persisted = st.persisted ∧
    (addToVectorIndex st item).inverted = st.inverted ∧
    (addToVectorIndex st item).indexBuilt = st.indexBuilt := by
  unfold addToVectorIndex
  dsimp only
  split_ifs with h1 h2 h3
  · exact ⟨rfl, rfl, rfl, rfl⟩
  · exact ⟨rfl, rfl, rfl, rfl⟩
  · exact ⟨rfl, rfl, rfl, rfl⟩
  · exact addChunksLoop_frame item _ _ 0

theorem addToVectorIndex_unavailable (st : KnowledgeStore) (item : KnowledgeItem)
    (h : st.embedding.available = false) :
    addToVectorIndex st item = { st with lastVectorIndexError := none } := by
  unfold addToVectorIndex
  rw [if_pos]
  simpa using h

/-- `remove_vector` does not touch the live sequential vectors, the
strategy, or the trained flag (it only edits the id maps, the pending
buffer and — for Flat — the FAISS-held rows). -/
theorem removeVector_live (st : VectorStore) (itemId : Str) :
    (st.removeVector itemId).1.indexType = st.indexType ∧
    (st.removeVector itemId).1.seqVecs = st.seqVecs ∧
    (st.removeVector itemId).1.isTrained = st.isTrained := by
  unfold VectorStore.removeVector
  cases alistGet st.revMap itemId with
  | none => exact ⟨rfl, rfl, rfl⟩
  | some iid =>
    dsimp only
    split_ifs <;> exact ⟨rfl, rfl, rfl⟩

/-- The post-dimension-check add body keeps the live FAISS index
non-empty: Flat/HNSW insertions append a row, and the untrained-IVF
pending path leaves the (non-empty by hypothesis) live rows alone. -/
theorem addVectorCore_ntotal (st : VectorStore) (itemId : Str) (v : Vec)
    (hn : st.ntotal ≠ 0) :
    (VectorStore.addVectorCore st itemId v).1.ntotal ≠ 0 := by
  unfold VectorStore.addVectorCore
  dsimp only
  set st₁ := if alistGet st.revMap itemId ≠ none then (st.removeVector itemId).1 else st
    with hst₁
  have hty : st₁.indexType = st.indexType := by
    rw [hst₁]
    split_ifs
    · exact (removeVector_live st itemId).1
    · rfl
  have hseq : st₁.seqVecs = st.seqVecs := by
    rw [hst₁]
    split_ifs
    · exact (removeVector_live st itemId).2.1
    · rfl
  split_ifs with h2 h3 h4
  · have hivf : st.indexType = .ivf := by rw [← hty]; exact h2.1
    simp only [VectorStore.ntotal, hivf] at hn
    simp only [VectorStore.ntotal, hty, hivf, hseq]
    exact hn
  · simp [VectorStore.ntotal, h3]
  · simp [VectorStore.ntotal, h4]
  · have : st₁.indexType ≠ .flat := h4
    simp only [VectorStore.ntotal]
    cases hcase : st₁.indexType <;> simp_all

/-- `add_vector` on a non-empty index and a mismatched non-empty vector:
the exact failure equation (state unchanged except the recorded
`dimension_mismatch` last-error). -/
theorem addVector_mismatch_fail (st : VectorStore) (itemId : Str) (v : Vec)
    (hv : v ≠ []) (hd : v.length ≠ st.dimension) (hn : st.ntotal ≠ 0) :
    st.addVector itemId v
      = ({ st with lastError := some ⟨st.dimension, v.length, VOp.add_vector⟩ }, false) := by
  unfold VectorStore.addVector
  rw [if_neg hv, if_pos hd, if_neg hn]

/-- `add_vector` with a matching dimension always succeeds, preserves
the dimension and keeps the index non-empty. -/
theorem addVector_match_success (st : VectorStore) (itemId : Str) (v : Vec)
    (hv : v ≠ []) (hd : v.length = st.dimension) :
    (st.addVector itemId v).2 = true ∧
    (st.addVector itemId v).1.dimension = st.dimension ∧
    (st.ntotal ≠ 0 → (st.addVector itemId v).1.ntotal ≠ 0) := by
  unfold VectorStore.addVector
  rw [if_neg hv, if_neg (by simp [hd])]
  exact ⟨addVectorCore_snd _ _ _, addVectorCore_dimension _ _ _,
    addVectorCore_ntotal _ _ _⟩

/-- The chunk-add loop of `_add_to_vector_index` records the *first*
failing `add_vector` at any chunk position: if the vectors before the
failing one match the index dimension (so their adds succeed) and the
failing vector is non-empty with a mismatched length against a
non-empty index, the loop stops there and stores exactly its
`dimension_mismatch` error. -/
theorem addChunksLoop_records (item : KnowledgeItem) :
    ∀ (pre : List Vec) (st : KnowledgeStore) (i : ℕ) (v : Vec) (rest : List Vec),
      (∀ w ∈ pre, w ≠ [] → w.length = st.vs.dimension) →
      v ≠ [] → v.length ≠ st.vs.dimension → st.vs.ntotal ≠ 0 →
      (addChunksLoop item st (pre ++ v :: rest) i).lastVectorIndexError
        = some ⟨st.vs.dimension, v.length, VOp.add_vector⟩ := by
  intro pre
  induction pre with
  | nil =>
    intro st i v rest _ hv hd hn
    rw [List.nil_append]
    rw [show addChunksLoop item st (v :: rest) i
          = if v = [] then addChunksLoop item st rest (i + 1)
            else
              let r := st.vs.addVector (makeChunkId item.id i) v
              if r.2 then addChunksLoop item { st with vs := r.1 } rest (i + 1)
              else
                { st with
                    vs := r.1
                    lastVectorIndexError :=
                      match r.1.lastError with
                      | some e => some e
                      | none => st.lastVectorIndexError } from rfl]
    dsimp only
    rw [if_neg hv, addVector_mismatch_fail st.vs (makeChunkId item.id i) v hv hd hn]
    simp
  | cons w pre ih =>
    intro st i v rest hpre hv hd hn
    rw [List.cons_append]
    rw [show addChunksLoop item st (w :: (pre ++ v :: rest)) i
          = if w = [] then addChunksLoop item st (pre ++ v :: rest) (i + 1)
            else
              let r := st.vs.addVector (makeChunkId item.id i) w
              if r.2 then addChunksLoop item { st with vs := r.1 } (pre ++ v :: rest) (i + 1)
              else
                { st with
                    vs := r.1
                    lastVectorIndexError :=
                      match r.1.lastError with
                      | some e => some e
                      | none => st.lastVectorIndexError } from rfl]
    dsimp only
    by_cases hw : w = []
    · rw [if_pos hw]
      exact ih st (i + 1) v rest (fun x hx => hpre x (List.mem_cons_of_mem _ hx)) hv hd hn
    · rw [if_neg hw]
      have hwd : w.length = st.vs.dimension := hpre w (List.mem_cons_self _ _) hw
      have hs := addVector_match_success st.vs (makeChunkId item.id i) w hw hwd
      rw [if_pos hs.1]
      have hdim : ({ st with vs := (st.vs.addVector (makeChunkId item.id i) w).1 }
          : KnowledgeStore).vs.dimension = st.vs.dimension := hs.2.1
      rw [ih { st with vs := (st.vs.addVector (makeChunkId item.id i) w).1 } (i + 1) v rest
        (fun x hx hxe => (hpre x (List.mem_cons_of_mem _ hx) hxe).trans hdim.symm)
        hv (by rw [hdim]; exact hd) (hs.2.2 hn)]
      rw [hdim]

/-- `_update_inverted_index` with the index already built is exactly the
incremental patch. -/
theorem storeUpdateInverted_built (st : KnowledgeStore) (item : KnowledgeItem) (rm : Bool)
    (hb : st.indexBuilt = true) :
    storeUpdateInverted st item rm
      = { st with inverted := updateInvertedIndex st.inverted item rm } := by
  unfold storeUpdateInverted
  rw [if_neg (by simp [hb])]

/-- **C2 (amended).** Repository mutations always succeed regardless of
vector-index synchronisation failures, and whether the failure is
afterwards retrievable depends on the failure mode.
(1) `add_item` always appends exactly the requested item, persists the
item set, and — when the index is built — applies the incremental
inverted-index patch for the new item; with the embedding collaborator
unavailable it leaves `last_vector_index_error = None`.
(2) `update_item` on an existing item (the `find?` hypothesis) returns
success, replaces exactly the first matching item with the updated
fields in the canonical set, persists it, applies the remove-old
then add-new inverted-index patch, and likewise leaves `None` when the
embedding collaborator is unavailable.
(3)/(4) For both mutations: when the embedding collaborator is
available and the embedded chunk vectors split as `pre ++ v :: rest`
with every non-empty vector of `pre` matching the index dimension (so
its add succeeds), `v` non-empty of mismatched length, and the purged
index non-empty, the mutation records exactly
`dimension_mismatch{expected = index dimension, actual = len(v)}` —
the first failing `add_vector` of the chunk loop, at any chunk
position. No exception paths exist (all modelled operations are
total). -/
theorem mutation_survives_vector_failure :
    (∀ (st : KnowledgeStore) (q a : Str) (kws : List Str) (cat : Str),
      (addItem st q a kws cat).1.items = st.items ++ [(addItem st q a kws cat).2] ∧
      (addItem st q a kws cat).2.question = q ∧
      (addItem st q a kws cat).2.answer = a ∧
      (addItem st q a kws cat).2.keywords = kws ∧
      (addItem st q a kws cat).2.category = cat ∧
      (addItem st q a kws cat).1.persisted = (addItem st q a kws cat).1.items ∧
      (st.indexBuilt = true →
        (addItem st q a kws cat).1.inverted
          = updateInvertedIndex st.inverted (addItem st q a kws cat).2 false) ∧
      (st.embedding.available = false →
        (addItem st q a kws cat).1.lastVectorIndexError = none)) ∧
    (∀ (st : KnowledgeStore) (itemId : Str) (u : ItemUpdate) (old : KnowledgeItem),
      st.items.find? (fun it => it.id = itemId) = some old →
      (updateItem st itemId u).2 = true ∧
      (updateItem st itemId u).1.items
        = replaceFirst st.items itemId (applyUpdate old u) ∧
      (updateItem st itemId u).1.persisted = (updateItem st itemId u).1.items ∧
      (st.indexBuilt = true →
        (updateItem st itemId u).1.inverted
          = updateInvertedIndex (updateInvertedIndex st.inverted old true)
              (applyUpdate old u) false) ∧
      (st.embedding.available = false →
        (updateItem st itemId u).1.lastVectorIndexError = none)) ∧
    (∀ (st : KnowledgeStore) (q a : Str) (kws : List Str) (cat : Str)
        (pre : List Vec) (v : Vec) (rest : List Vec),
      st.embedding.available = true →
      itemChunks st.cfg ⟨'K' :: pad3 (maxItemId st.items + 1), q, a, kws, cat, 1⟩ ≠ [] →
      st.embedding.embedTexts
          (itemChunks st.cfg ⟨'K' :: pad3 (maxItemId st.items + 1), q, a, kws, cat, 1⟩)
        = pre ++ v :: rest →
      (pre ++ v :: rest).length
        = (itemChunks st.cfg ⟨'K' :: pad3 (maxItemId st.items + 1), q, a, kws, cat, 1⟩).length →
      (∀ w ∈ pre, w ≠ [] → w.length = st.vs.dimension) →
      v ≠ [] → v.length ≠ st.vs.dimension →
      (VectorStore.removeVectorsByPrefix
          (st.vs.removeVector ('K' :: pad3 (maxItemId st.items + 1))).1
          (('K' :: pad3 (maxItemId st.items + 1)) ++ "#".data)).1.ntotal ≠ 0 →
      (addItem st q a kws cat).1.lastVectorIndexError
        = some ⟨st.vs.dimension, v.length, VOp.add_vector⟩) ∧
    (∀ (st : KnowledgeStore) (itemId : Str) (u : ItemUpdate) (old : KnowledgeItem)
        (pre : List Vec) (v : Vec) (rest : List Vec),
      st.items.find? (fun it => it.id = itemId) = some old →
      st.embedding.available = true →
      itemChunks st.cfg (applyUpdate old u) ≠ [] →
      st.embedding.embedTexts (itemChunks st.cfg (applyUpdate old u)) = pre ++ v :: rest →
      (pre ++ v :: rest).length = (itemChunks st.cfg (applyUpdate old u)).length →
      (∀ w ∈ pre, w ≠ [] → w.length = st.vs.dimension) →
      v ≠ [] → v.length ≠ st.vs.dimension →
      (VectorStore.removeVectorsByPrefix
          (st.vs.removeVector (applyUpdate old u).id).1
          ((applyUpdate old u).id ++ "#".data)).1.ntotal ≠ 0 →
      (updateItem st itemId u).1.lastVectorIndexError
        = some ⟨st.vs.dimension, v.length, VOp.add_vector⟩) := by
  refine ⟨?_, ?_, ?_, ?_⟩
  · intro st q a kws cat
    set item : KnowledgeItem :=
      ⟨'K' :: pad3 (maxItemId st.items + 1), q, a, kws, cat, 1⟩ with hitem
    have h2 : (addItem st q a kws cat).2 = item := rfl
    set st₂ : KnowledgeStore :=
      { st with items := st.items ++ [item], persisted := st.items ++ [item] } with hst₂
    set st₃ := storeUpdateInverted st₂ item false with hst₃
    have h1 : (addItem st q a kws cat).1 = addToVectorIndex st₃ item := rfl
    have hf₃ := storeUpdateInverted_frame st₂ item false
    have hf₄ := addToVectorIndex_frame st₃ item
    refine ⟨?_, rfl, rfl, rfl, rfl, ?_, ?_, ?_⟩
    · rw [h1, h2, hf₄.1, hf₃.1]
    · rw [h1, hf₄.1, hf₄.2.1, hf₃.1, hf₃.2.1]
    · intro hb
      rw [h1, h2, hf₄.2.2.1, hst₃]
      unfold storeUpdateInverted
      rw [if_neg (by simpa [hst₂] using hb)]
    · intro hav
      rw [h1, addToVectorIndex_unavailable st₃ item
        (by rw [hf₃.2.2.1, hst₂]; exact hav)]
  · intro st itemId u old hfind
    have hEq : updateItem st itemId u
        = (addToVectorIndex
            (storeUpdateInverted
              { storeUpdateInverted st old true with
                  items := replaceFirst (storeUpdateInverted st old true).items itemId
                    (applyUpdate old u)
                  persisted := replaceFirst (storeUpdateInverted st old true).items itemId
                    (applyUpdate old u) }
              (applyUpdate old u) false)
            (applyUpdate old u), true) := by
      unfold updateItem
      rw [hfind]
    set stm := { storeUpdateInverted st old true with
        items := replaceFirst (storeUpdateInverted st old true).items itemId
          (applyUpdate old u)
        persisted := replaceFirst (storeUpdateInverted st old true).items itemId
          (applyUpdate old u) } with hstm
    have hfa := storeUpdateInverted_frame stm (applyUpdate old u) false
    have hfb := addToVectorIndex_frame (storeUpdateInverted stm (applyUpdate old u) false)
      (applyUpdate old u)
    have hfo := storeUpdateInverted_frame st old true
    refine ⟨?_, ?_, ?_, ?_, ?_⟩
    · rw [hEq]
    · rw [hEq]
      dsimp only
      rw [hfb.1, hfa.1, hstm]
      dsimp only
      rw [hfo.1]
    · rw [hEq]
      dsimp only
      rw [hfb.1, hfb.2.1, hfa.1, hfa.2.1]
    · intro hb
      rw [hEq]
      dsimp only
      rw [hfb.2.2.1]
      rw [show storeUpdateInverted st old true
            = { st with inverted := updateInvertedIndex st.inverted old true } from
          storeUpdateInverted_built st old true hb] at hstm
      rw [storeUpdateInverted_built stm (applyUpdate old u) false (by rw [hstm]; exact hb)]
      rw [hstm]
    · intro hav
      rw [hEq]
      dsimp only
      rw [addToVectorIndex_unavailable _ _ (by
        rw [hfa.2.2.1, hstm]
        dsimp only
        rw [hfo.2.2.1]
        exact hav)]
  · intro st q a kws cat pre v rest hav hchne hsplit hlen hpre hv hd hnt
    set item : KnowledgeItem :=
      ⟨'K' :: pad3 (maxItemId st.items + 1), q, a, kws, cat, 1⟩ with hitem
    set st₂ : KnowledgeStore :=
      { st with items := st.items ++ [item], persisted := st.items ++ [item] } with hst₂
    set st₃ := storeUpdateInverted st₂ item false with hst₃
    have h1 : (addItem st q a kws cat).1 = addToVectorIndex st₃ item := rfl
    have hf₃ := storeUpdateInverted_frame st₂ item false
    have hvs₃ : st₃.vs = st.vs := by rw [hf₃.2.2.2.1, hst₂]
    have hemb₃ : st₃.embedding = st.embedding := by rw [hf₃.2.2.1, hst₂]
    have hcfg₃ : st₃.cfg = st.cfg := by rw [hf₃.2.2.2.2.1, hst₂]
    have hchne₃ : itemChunks st₃.cfg item ≠ [] := by rw [hcfg₃]; exact hchne
    have hsplit₃ : st₃.embedding.embedTexts (itemChunks st₃.cfg item) = pre ++ v :: rest := by
      rw [hemb₃, hcfg₃]; exact hsplit
    have hlen₃ : (pre ++ v :: rest).length = (itemChunks st₃.cfg item).length := by
      rw [hcfg₃]; exact hlen
    rw [h1]
    unfold addToVectorIndex
    rw [if_neg (by simp [hemb₃, hav])]
    dsimp only
    rw [if_neg hchne₃]
    rw [hsplit₃]
    rw [if_neg (not_or.mpr ⟨by simp, by simp [hlen₃]⟩)]
    set vs₂ := ((st₃.vs.removeVector item.id).1.removeVectorsByPrefix
      (item.id ++ "#".data)).1 with hvs₂
    have hdim₂ : vs₂.dimension = st.vs.dimension := by
      rw [hvs₂, removeVectorsByPrefix_dimension, removeVector_dimension, hvs₃]
    have hnt₂ : vs₂.ntotal ≠ 0 := by rw [hvs₂, hvs₃]; exact hnt
    refine (addChunksLoop_records item pre _ 0 v rest ?_ hv ?_ ?_).trans ?_
    · intro w hw hwne
      dsimp only
      rw [hdim₂]
      exact hpre w hw hwne
    · dsimp only
      rw [hdim₂]
      exact hd
    · dsimp only
      exact hnt₂
    · dsimp only
      rw [hdim₂]
  · intro st itemId u old pre v rest hfind hav hchne hsplit hlen hpre hv hd hnt
    have hEq : updateItem st itemId u
        = (addToVectorIndex
            (storeUpdateInverted
              { storeUpdateInverted st old true with
                  items := replaceFirst (storeUpdateInverted st old true).items itemId
                    (applyUpdate old u)
                  persisted := replaceFirst (storeUpdateInverted st old true).items itemId
                    (applyUpdate old u) }
              (applyUpdate old u) false)
            (applyUpdate old u), true) := by
      unfold updateItem
      rw [hfind]
    rw [hEq]
    dsimp only
    set stm := { storeUpdateInverted st old true with
        items := replaceFirst (storeUpdateInverted st old true).items itemId
          (applyUpdate old u)
        persisted := replaceFirst (storeUpdateInverted st old true).items itemId
          (applyUpdate old u) } with hstm
    set st₄ := storeUpdateInverted stm (applyUpdate old u) false with hst₄
    have hfa := storeUpdateInverted_frame stm (applyUpdate old u) false
    have hfo := storeUpdateInverted_frame st old true
    have hvs₄ : st₄.vs = st.vs := by
      rw [hst₄, hfa.2.2.2.1, hstm]
      dsimp only
      rw [hfo.2.2.2.1]
    have hemb₄ : st₄.embedding = st.embedding := by
      rw [hst₄, hfa.2.2.1, hstm]
      dsimp only
      rw [hfo.2.2.1]
    have hcfg₄ : st₄.cfg = st.cfg := by
      rw [hst₄, hfa.2.2.2.2.1, hstm]
      dsimp only
      rw [hfo.2.2.2.2.1]
    have hchne₄ : itemChunks st₄.cfg (applyUpdate old u) ≠ [] := by rw [hcfg₄]; exact hchne
    have hsplit₄ : st₄.embedding.embedTexts (itemChunks st₄.cfg (applyUpdate old u))
        = pre ++ v :: rest := by rw [hemb₄, hcfg₄]; exact hsplit
    have hlen₄ : (pre ++ v :: rest).length
        = (itemChunks st₄.cfg (applyUpdate old u)).length := by rw [hcfg₄]; exact hlen
    unfold addToVectorIndex
    rw [if_neg (by simp [hemb₄, hav])]
    dsimp only
    rw [if_neg hchne₄]
    rw [hsplit₄]
    rw [if_neg (not_or.mpr ⟨by simp, by simp [hlen₄]⟩)]
    set vs₄ := ((st₄.vs.removeVector (applyUpdate old u).id).1.removeVectorsByPrefix
      ((applyUpdate old u).id ++ "#".data)).1 with hvs₄₂
    have hdim₄ : vs₄.dimension = st.vs.dimension := by
      rw [hvs₄₂, removeVectorsByPrefix_dimension, removeVector_dimension, hvs₄]
    have hnt₄ : vs₄.ntotal ≠ 0 := by rw [hvs₄₂, hvs₄]; exact hnt
    refine (addChunksLoop_records (applyUpdate old u) pre _ 0 v rest ?_ hv ?_ ?_).trans ?_
    · intro w hw hwne
      dsimp only
      rw [hdim₄]
      exact hpre w hw hwne
    · dsimp only
      rw [hdim₄]
      exact hd
    · dsimp only
      exact hnt₄
    · dsimp only
      rw [hdim₄]

/-- Witness store: embedding unavailable, index built, empty item set,
a stale retrievable error from an earlier search. -/
def ksA : KnowledgeStore :=
  ⟨[], [], [], true, some ⟨9, 9, VOp.search⟩, ⟨false, fun _ => []⟩,
   ⟨2, .flat, 0, [(0, [1, 0])], [], [(0, ['X'])], [(['X'], 0)], 1, true, [], none⟩,
   ⟨500, 50, 5, 4/10, 6⟩⟩

/-- Witness store: like `ksA` but holding one item `K001`. -/
def ksB : KnowledgeStore :=
  { ksA with
      items := [⟨"K001".data, "hi".data, "yo".data, ["k".data], "c".data, 1⟩]
      persisted := [⟨"K001".data, "hi".data, "yo".data, ["k".data], "c".data, 1⟩] }

/-- Witness store: embedding available but returning a 3-dimensional
vector against a 2-dimensional non-empty index (`add_item` failure). -/
def ksC : KnowledgeStore :=
  { ksA with embedding := ⟨true, fun _ => [[1, 1, 1]]⟩ }

/-- Witness store: `ksB` with the same mismatching embedding client
(`update_item` failure). -/
def ksD : KnowledgeStore :=
  { ksB with embedding := ⟨true, fun _ => [[1, 1, 1]]⟩ }

theorem mutation_survives_vector_failure_witness :
    (ksA.embedding.available = false ∧ ksA.indexBuilt = true) ∧
    ((addItem ksA "hi".data "yo".data ["k".data] "c".data).1.items
        = ksA.items ++ [(addItem ksA "hi".data "yo".data ["k".data] "c".data).2] ∧
      (addItem ksA "hi".data "yo".data ["k".data] "c".data).1.persisted
        = (addItem ksA "hi".data "yo".data ["k".data] "c".data).1.items ∧
      (addItem ksA "hi".data "yo".data ["k".data] "c".data).1.inverted
        = updateInvertedIndex ksA.inverted
            (addItem ksA "hi".data "yo".data ["k".data] "c".data).2 false ∧
      (addItem ksA "hi".data "yo".data ["k".data] "c".data).1.lastVectorIndexError
        = none) ∧
    ((updateItem ksB "K001".data ⟨some "hi2".data, none, none, none⟩).2 = true ∧
      (updateItem ksB "K001".data ⟨some "hi2".data, none, none, none⟩).1.items
        = replaceFirst ksB.items "K001".data
            (applyUpdate ⟨"K001".data, "hi".data, "yo".data, ["k".data], "c".data, 1⟩
              ⟨some "hi2".data, none, none, none⟩) ∧
      (updateItem ksB "K001".data ⟨some "hi2".data, none, none, none⟩).1.persisted
        = (updateItem ksB "K001".data ⟨some "hi2".data, none, none, none⟩).1.items ∧
      (updateItem ksB "K001".data ⟨some "hi2".data, none, none, none⟩).1.inverted
        = updateInvertedIndex
            (updateInvertedIndex ksB.inverted
              ⟨"K001".data, "hi".data, "yo".data, ["k".data], "c".data, 1⟩ true)
            (applyUpdate ⟨"K001".data, "hi".data, "yo".data, ["k".data], "c".data, 1⟩
              ⟨some "hi2".data, none, none, none⟩) false ∧
      (updateItem ksB "K001".data ⟨some "hi2".data, none, none, none⟩).1.lastVectorIndexError
        = none) ∧
    (ksC.embedding.available = true ∧ ksC.vs.dimension = 2 ∧
      (addItem ksC "hi".data "yo".data ["k".data] "c".data).1.lastVectorIndexError
        = some ⟨2, 3, VOp.add_vector⟩) ∧
    (ksD.embedding.available = true ∧ ksD.vs.dimension = 2 ∧
      (updateItem ksD "K001".data ⟨some "hi2".data, none, none, none⟩).1.lastVectorIndexError
        = some ⟨2, 3, VOp.add_vector⟩) := by
  refine ⟨⟨by decide, by decide⟩, ?_, ?_, ?_, ?_⟩
  · have h := mutation_survives_vector_failure.1 ksA "hi".data "yo".data ["k".data] "c".data
    exact ⟨h.1, h.2.2.2.2.2.1, h.2.2.2.2.2.2.1 (by decide), h.2.2.2.2.2.2.2 (by decide)⟩
  · have h := mutation_survives_vector_failure.2.1 ksB "K001".data
      ⟨some "hi2".data, none, none, none⟩
      ⟨"K001".data, "hi".data, "yo".data, ["k".data], "c".data, 1⟩ (by decide)
    exact ⟨h.1, h.2.1, h.2.2.1, h.2.2.2.1 (by decide), h.2.2.2.2 (by decide)⟩
  · refine ⟨by decide, by decide, ?_⟩
    exact mutation_survives_vector_failure.2.2.1 ksC "hi".data "yo".data ["k".data]
      "c".data [] [1, 1, 1] [] (by decide) (by decide) (by decide) (by decide)
      (by simp) (by decide) (by decide) (by decide)
  · refine ⟨by decide, by decide, ?_⟩
    exact mutation_survives_vector_failure.2.2.2 ksD "K001".data
      ⟨some "hi2".data, none, none, none⟩
      ⟨"K001".data, "hi".data, "yo".data, ["k".data], "c".data, 1⟩
      [] [1, 1, 1] [] (by decide) (by decide) (by decide) (by decide) (by decide)
      (by simp) (by decide) (by decide) (by decide)

/-- **C2 counterexample to the frozen claim.** The claim asserts every
vector-synchronisation failure is retrievable afterwards through
`last_vector_index_error`; the unavailable-embedding failure mode is
not.  In `ksA` the embedding collaborator is unavailable, so `add_item`
performs no vector-store write (the index visibly lags behind: the
store still holds only its one pre-existing record), yet afterwards
`last_vector_index_error` is `None` — `_add_to_vector_index` resets the
field on entry and the early `return` on unavailability never writes
it.  (It even erases the error that was retrievable before the call.) -/
theorem vector_failure_not_retrievable_counterexample :
    ksA.embedding.available = false ∧
    ksA.lastVectorIndexError = some ⟨9, 9, VOp.search⟩ ∧
    (addItem ksA "hi".data "yo".data ["k".data] "c".data).1.vs = ksA.vs ∧
    (addItem ksA "hi".data "yo".data ["k".data] "c".data).1.lastVectorIndexError = none := by
  refine ⟨by decide, by decide, ?_, by decide⟩
  decide

/-! ## C9 — keyword fallback when the embedding collaborator is unavailable -/

/-- The scenario item of the claim: `{id: "K001", question: "退货政策",
answer: "七天无理由退货", keywords: ["退货", "退款"]}` (score defaults
to 1, category to "通用" as in `add_item`). -/
def item9 : KnowledgeItem :=
  ⟨"K001".data, "退货政策".data, "七天无理由退货".data, ["退货".data, "退款".data],
   "通用".data, 1⟩

/-- The scenario repository: only `item9`, inverted index built, embedding
collaborator unavailable, defaults for the configuration. -/
def store9 : KnowledgeStore :=
  ⟨[item9], [item9], buildInvertedIndex [item9], true, none, ⟨false, fun _ => []⟩,
   ⟨2, .flat, 0, [], [], [], [], 0, true, [], none⟩, ⟨500, 50, 5, 4/10, 6⟩⟩

/-- `_keyword_search` on the raw query `"怎么退货"`: the token `退货` hits
the inverted index, and the score is
`0.35 (keyword hit) + 0.22·(1/4) + 0.14·(1/4) = 0.44 = 11/25`. -/
theorem kw9_raw : keywordSearch store9 ['怎','么','退','货'] (4/10) = [(item9, 11/25)] := by
  have h1 : strip ['怎','么','退','货'] = ['怎','么','退','货'] := by decide
  have h2 : extractTokens ['怎','么','退','货']
      = [['怎','么','退','货'], ['怎','么'], ['么','退'], ['退','货']] := by decide
  have hi3 : store9.items = [item9] := rfl
  have hi4 : store9.cfg.retrievalTopK = 5 := rfl
  have ha1 : alistGet store9.inverted (List.map Char.toLower ['怎','么','退','货']) = none := by
    decide
  have ha2 : alistGet store9.inverted (List.map Char.toLower ['怎','么']) = none := by decide
  have ha3 : alistGet store9.inverted (List.map Char.toLower ['么','退']) = none := by decide
  have ha4 : alistGet store9.inverted (List.map Char.toLower ['退','货'])
      = some [['K','0','0','1']] := by decide
  have hkw : (item9.keywords.filter fun kw =>
      kw ≠ [] ∧ strContains ['怎','么','退','货'] kw).length = 1 := by decide
  have hqh : (([['怎','么','退','货'], ['怎','么'], ['么','退'], ['退','货']] : List Str).filter
      fun t => t ≠ [] ∧ item9.question ≠ [] ∧ strContains item9.question t).length = 1 := by
    decide
  have hah : (([['怎','么','退','货'], ['怎','么'], ['么','退'], ['退','货']] : List Str).filter
      fun t => t ≠ [] ∧ item9.answer ≠ [] ∧ strContains item9.answer t).length = 1 := by
    decide
  have h0q : ¬(['怎','么','退','货'] = ([] : Str)) := by decide
  have h0t : ¬(([['怎','么','退','货'], ['怎','么'], ['么','退'], ['退','货']] : List Str) = []) := by
    decide
  have h0h : ¬(([['K','0','0','1']] : List Str) = []) := by decide
  simp only [keywordSearch, h1, h2, hi3, hi4, h0q, h0t, ite_false, ite_true]
  rw [if_pos (⟨rfl, by decide⟩ : store9.indexBuilt = true ∧ store9.inverted ≠ [])]
  simp only [List.foldl_cons, List.foldl_nil, ha1, ha2, ha3, ha4, List.nil_append, h0h,
    ite_false, ite_true]
  simp only [List.filterMap_cons, List.filterMap_nil]
  rw [if_pos (show item9.id ∈ ([['K','0','0','1']] : List Str) from by decide)]
  rw [if_neg (show ¬(item9.question ≠ [] ∧ strContains (List.map Char.toLower item9.question)
    (List.map Char.toLower ['怎','么','退','货']) = true) from by decide)]
  rw [if_neg (show ¬(item9.answer ≠ [] ∧ strContains (List.map Char.toLower item9.answer)
    (List.map Char.toLower ['怎','么','退','货']) = true) from by decide)]
  simp only [hkw, hqh, hah]
  norm_num [min_def, sortDescBy, insertDesc, show max (1:ℕ) 4 = 4 from rfl]

/-- `_keyword_search` on the rewritten query `"怎么退货 退换货"`
(synonym expansion appends `退换货`): 7 tokens, score
`0.35 + 0.22·(1/7) + 0.14·(1/7) = 281/700`. -/
theorem kw9_rw :
    keywordSearch store9 ['怎','么','退','货',' ','退','换','货'] (4/10)
      = [(item9, 281/700)] := by
  have h1 : strip ['怎','么','退','货',' ','退','换','货']
      = ['怎','么','退','货',' ','退','换','货'] := by decide
  have h2 : extractTokens ['怎','么','退','货',' ','退','换','货']
      = [['怎','么','退','货'], ['怎','么'], ['么','退'], ['退','货'],
         ['退','换','货'], ['退','换'], ['换','货']] := by decide
  have hi3 : store9.items = [item9] := rfl
  have hi4 : store9.cfg.retrievalTopK = 5 := rfl
  have ha1 : alistGet store9.inverted (List.map Char.toLower ['怎','么','退','货']) = none := by
    decide
  have ha2 : alistGet store9.inverted (List.map Char.toLower ['怎','么']) = none := by decide
  have ha3 : alistGet store9.inverted (List.map Char.toLower ['么','退']) = none := by decide
  have ha4 : alistGet store9.inverted (List.map Char.toLower ['退','货'])
      = some [['K','0','0','1']] := by decide
  have ha5 : alistGet store9.inverted (List.map Char.toLower ['退','换','货']) = none := by
    decide
  have ha6 : alistGet store9.inverted (List.map Char.toLower ['退','换']) = none := by decide
  have ha7 : alistGet store9.inverted (List.map Char.toLower ['换','货']) = none := by decide
  have hkw : (item9.keywords.filter fun kw =>
      kw ≠ [] ∧ strContains ['怎','么','退','货',' ','退','换','货'] kw).length = 1 := by
    decide
  have hqh : (([['怎','么','退','货'], ['怎','么'], ['么','退'], ['退','货'],
      ['退','换','货'], ['退','换'], ['换','货']] : List Str).filter
      fun t => t ≠ [] ∧ item9.question ≠ [] ∧ strContains item9.question t).length = 1 := by
    decide
  have hah : (([['怎','么','退','货'], ['怎','么'], ['么','退'], ['退','货'],
      ['退','换','货'], ['退','换'], ['换','货']] : List Str).filter
      fun t => t ≠ [] ∧ item9.answer ≠ [] ∧ strContains item9.answer t).length = 1 := by
    decide
  have h0q : ¬(['怎','么','退','货',' ','退','换','货'] = ([] : Str)) := by decide
  have h0t : ¬(([['怎','么','退','货'], ['怎','么'], ['么','退'], ['退','货'],
      ['退','换','货'], ['退','换'], ['换','货']] : List Str) = []) := by decide
  have h0h : ¬(([['K','0','0','1']] : List Str) = []) := by decide
  simp only [keywordSearch, h1, h2, hi3, hi4, h0q, h0t, ite_false, ite_true]
  rw [if_pos (⟨rfl, by decide⟩ : store9.indexBuilt = true ∧ store9.inverted ≠ [])]
  simp only [List.foldl_cons, List.foldl_nil, ha1, ha2, ha3, ha4, ha5, ha6, ha7,
    List.nil_append, h0h, ite_false, ite_true]
  simp only [List.filterMap_cons, List.filterMap_nil]
  rw [if_pos (show item9.id ∈ ([['K','0','0','1']] : List Str) from by decide)]
  rw [if_neg (show ¬(item9.question ≠ [] ∧ strContains (List.map Char.toLower item9.question)
    (List.map Char.toLower ['怎','么','退','货',' ','退','换','货']) = true) from by decide)]
  rw [if_neg (show ¬(item9.answer ≠ [] ∧ strContains (List.map Char.toLower item9.answer)
    (List.map Char.toLower ['怎','么','退','货',' ','退','换','货']) = true) from by decide)]
  simp only [hkw, hqh, hah]
  norm_num [min_def, sortDescBy, insertDesc, show max (1:ℕ) 7 = 7 from rfl]

/-- `_keyword_search_multi` over `[rewritten, raw]` merges per item by
maximum: `max(281/700, 11/25) = 11/25`. -/
theorem ksm9 :
    keywordSearchMulti store9
      [['怎','么','退','货',' ','退','换','货'], ['怎','么','退','货']] (4/10)
      = [(item9, 11/25)] := by
  have hu : uniqQueries [['怎','么','退','货',' ','退','换','货'], ['怎','么','退','货']]
      = [['怎','么','退','货',' ','退','换','货'], ['怎','么','退','货']] := by decide
  have hi4 : store9.cfg.retrievalTopK = 5 := rfl
  simp only [keywordSearchMulti, hu, hi4, List.map_cons, List.map_nil]
  rw [if_neg (show ¬(([['怎','么','退','货',' ','退','换','货'], ['怎','么','退','货']]
    : List Str) = []) from by decide)]
  rw [kw9_rw, kw9_raw]
  norm_num [mergeResults, alistGet, alistSet, sortDescBy, insertDesc]

/-- `_compute_confidence` on the scenario result: base `11/25`, no gap
bonus, keyword coverage `1/2` contributing `0.08·(1/2) = 0.04`, no
result-count bonus: `0.48 = 12/25`. -/
theorem conf9 : computeConfidence ['怎','么','退','货'] [(item9, 11/25)] = 12/25 := by
  have hkf : item9.keywords.filter (· ≠ []) = [['退','货'], ['退','款']] := by decide
  have hhit : ((([['退','货'], ['退','款']] : List Str).take 2).filter
      fun kw => strContains ['怎','么','退','货'] kw).length = 1 := by decide
  simp only [computeConfidence, hkf,
    show min (List.length ([['退','货'], ['退','款']] : List Str)) 6 = 2 from rfl]
  rw [if_pos (show (([['退','货'], ['退','款']] : List Str) ≠ []) from by decide)]
  simp only [hhit]
  norm_num [clampFinal, clamp01, min_def, max_def, show max (1:ℕ) 2 = 2 from rfl]

/-- **C9.** With the embedding collaborator unavailable, `search` never
raises (the model is total) and falls back to keyword search: for every
repository, query and threshold the recorded method is `"keyword"` and
the results are exactly `_keyword_search_multi` over `[rewritten, raw]`.
In the claim's scenario (repository `store9` holding only `item9`, query
`"怎么退货"`) the search returns `K001` with score `11/25 > 0`, method
`"keyword"`, and confidence `12/25 > 0`. -/
theorem keyword_fallback_scenario :
    (∀ (st : KnowledgeStore) (vp : List Str → ℚ → List (KnowledgeItem × ℚ))
        (q : Str) (th : Option ℚ),
      st.embedding.available = false →
      (searchStore st vp q th).2.searchMethod = SearchMethod.keyword ∧
      (searchStore st vp q th).1
        = keywordSearchMulti st [rewriteQuery q, q] (th.getD st.cfg.similarityThreshold)) ∧
    (∀ (vp : List Str → ℚ → List (KnowledgeItem × ℚ)),
      (searchStore store9 vp "怎么退货".data none).1 = [(item9, 11/25)] ∧
      (searchStore store9 vp "怎么退货".data none).2.searchMethod = SearchMethod.keyword ∧
      (searchStore store9 vp "怎么退货".data none).2.confidence = 12/25) ∧
    (0 : ℚ) < 11/25 ∧ (0 : ℚ) < 12/25 := by
  refine ⟨?_, ?_, by norm_num, by norm_num⟩
  · intro st vp q th hav
    have hv : vectorSearchMulti st vp [rewriteQuery q, q]
        (th.getD st.cfg.similarityThreshold) = [] := by
      unfold vectorSearchMulti
      rw [if_pos hav]
    refine ⟨?_, ?_⟩ <;> simp [searchStore, hv]
  · intro vp
    have hv : ∀ (qs : List Str) (t : ℚ), vectorSearchMulti store9 vp qs t = [] := by
      intro qs t
      unfold vectorSearchMulti
      rw [if_pos (show store9.embedding.available = false from by decide)]
    have hq : "怎么退货".data = ['怎','么','退','货'] := by decide
    have hrw : rewriteQuery ['怎','么','退','货']
        = ['怎','么','退','货',' ','退','换','货'] := by decide
    have hth : Option.getD (none : Option ℚ) store9.cfg.similarityThreshold = 4/10 := rfl
    refine ⟨?_, ?_, ?_⟩ <;>
      simp [searchStore, hv, hq, hrw, hth, ksm9, conf9]

theorem keyword_fallback_scenario_witness :
    store9.embedding.available = false ∧
    (searchStore store9 (fun _ _ => []) "怎么退货".data none).2.searchMethod
      = SearchMethod.keyword :=
  ⟨by decide, (keyword_fallback_scenario.1 store9 (fun _ _ => []) "怎么退货".data none
    (by decide)).1⟩
